import Mathlib

/-!
Verification of the workflow validator and dry-run executor
(`src/Calyb/tools/workflow_validator.py`, `src/Calyb/tools/dry_run_executor.py`).

The Python core receives an already-parsed JSON value tree.  We embed that
tree as `JValue` below (a mutual inductive so that decidable equality can be
derived), and translate each validator / simulator method into a Lean
function over it.  Machine-level corners that cannot occur for parsed JSON
documents (e.g. Python `dict`s always have unique keys, and ids used as
dict keys must be hashable) are noted in comments where a total function
has to choose a value for them.
-/

mutual

inductive JValue where
  | null : JValue
  | bool (b : Bool) : JValue
  | num (n : Int) : JValue
  | str (s : String) : JValue
  | arr (items : JList) : JValue
  | obj (fields : JFields) : JValue
deriving DecidableEq, Repr

inductive JList where
  | nil : JList
  | cons (v : JValue) (rest : JList) : JList
deriving DecidableEq, Repr

inductive JFields where
  | nil : JFields
  | cons (k : String) (v : JValue) (rest : JFields) : JFields
deriving DecidableEq, Repr

end

def JList.toList : JList → List JValue
  | .nil => []
  | .cons v r => v :: r.toList

def JList.ofList : List JValue → JList
  | [] => .nil
  | v :: r => .cons v (JList.ofList r)

def JFields.toList : JFields → List (String × JValue)
  | .nil => []
  | .cons k v r => (k, v) :: r.toList

def JFields.ofList : List (String × JValue) → JFields
  | [] => .nil
  | (k, v) :: r => .cons k v (JFields.ofList r)

/-- Build an array value from a plain list. -/
def JValue.arrOf (l : List JValue) : JValue := .arr (JList.ofList l)

/-- Build an object value from a plain association list. -/
def JValue.objOf (l : List (String × JValue)) : JValue := .obj (JFields.ofList l)

theorem jlist_toList_ofList (l : List JValue) : (JList.ofList l).toList = l := by
  induction l with
  | nil => rfl
  | cons v r ih => simp [JList.ofList, JList.toList, ih]

theorem jfields_toList_ofList (l : List (String × JValue)) :
    (JFields.ofList l).toList = l := by
  induction l with
  | nil => rfl
  | cons kv r ih => cases kv; simp [JFields.ofList, JFields.toList, ih]

/-- Keys of an object's field list, in insertion order. -/
def jfieldKeys (l : List (String × JValue)) : List String := l.map (·.1)

/-- Association-list lookup used for Python `dict` access.  Parsed JSON
dictionaries have unique keys, so first-match lookup agrees with Python. -/
def jlookup (k : String) : List (String × JValue) → Option JValue
  | [] => none
  | (k', v) :: rest => if k' = k then some v else jlookup k rest

/-- `d.get(k)` / `d[k]` on the object case; `none` on a missing key.  Python
would raise `TypeError` when subscripting a non-dict, which the claims treat
through explicit hypotheses / the `Except`-valued executor entry point. -/
def jget (v : JValue) (k : String) : Option JValue :=
  match v with
  | .obj fs => jlookup k fs.toList
  | _ => none

/-- `d.get(k, default)`. -/
def jgetD (v : JValue) (k : String) (dflt : JValue) : JValue :=
  (jget v k).getD dflt

/-- Python `k in d` membership test on the dict case. -/
def jhas (v : JValue) (k : String) : Bool :=
  (jget v k).isSome

/-- Keys of a JSON object (empty for every other shape). -/
def jkeys (v : JValue) : List String :=
  match v with
  | .obj fs => jfieldKeys fs.toList
  | _ => []

/-- Field list of a JSON object (empty for every other shape, mirroring that
the validator only ever iterates `.items()` of values that are dicts). -/
def jfields (v : JValue) : List (String × JValue) :=
  match v with
  | .obj fs => fs.toList
  | _ => []

/-- Python truthiness of a JSON value (`if not x`). -/
def jTruthy (v : JValue) : Bool :=
  match v with
  | .null => false
  | .bool b => b
  | .num n => n ≠ 0
  | .str s => s ≠ ""
  | .arr l => l.toList ≠ []
  | .obj fs => fs.toList ≠ []

/-- Python `for x in v` iteration: arrays yield their items, strings yield
one-character strings, dicts yield their keys.  (Iterating `null`, a bool
or a number raises `TypeError` in Python; the claims only exercise the
list/str/dict cases, and we return `[]` for the rest.) -/
def pyIter (v : JValue) : List JValue :=
  match v with
  | .arr l => l.toList
  | .str s => s.data.map (fun c => .str (String.mk [c]))
  | .obj fs => jfieldKeys fs.toList |>.map .str
  | _ => []

/-- Python `v == s` comparison of a JSON value against a string literal. -/
def jIsStr (v : JValue) (s : String) : Bool :=
  match v with
  | .str t => t = s
  | _ => false

example : jget (JValue.objOf [("a", .num 1), ("b", .null)]) "b" = some .null := by
  simp [JValue.objOf, JFields.ofList, jget, JFields.toList, jlookup]

example : jTruthy (JValue.objOf []) = false := rfl

/-! ### String helpers mirroring the Python primitives used by the tools -/

/-- Try to strip `p` from the front of `cs`; `some rest` on success. -/
def stripPre : List Char → List Char → Option (List Char)
  | [], cs => some cs
  | _ :: _, [] => none
  | p :: ps, c :: cs => if p = c then stripPre ps cs else none

/-- Does `needle` occur as a contiguous run inside `hay`?  This is Python's
substring test `needle in hay`. -/
def listContains (needle : List Char) : List Char → Bool
  | [] => (stripPre needle []).isSome
  | c :: rest => (stripPre needle (c :: rest)).isSome || listContains needle rest

def strContains (hay needle : String) : Bool :=
  listContains needle.data hay.data

/-- Python `str.lower()` (ASCII range, which is all the tools feed it). -/
def pyLower (s : String) : String :=
  String.mk (s.data.map Char.toLower)

def isAsciiAlpha (c : Char) : Bool :=
  ('a' ≤ c && c ≤ 'z') || ('A' ≤ c && c ≤ 'Z')

/-- Python `str.title()`: the first letter of every alphabetic run is
uppercased, the rest of the run lowercased, other characters unchanged. -/
def pyTitleGo : Bool → List Char → List Char
  | _, [] => []
  | prevAlpha, c :: rest =>
    if isAsciiAlpha c then
      (if prevAlpha then c.toLower else c.toUpper) :: pyTitleGo true rest
    else
      c :: pyTitleGo false rest

def pyTitle (s : String) : String :=
  String.mk (pyTitleGo false s.data)

/-- `re.match(r'^[a-z][a-z0-9_]*$', s)`: a lowercase letter followed by
lowercase letters, digits or underscores.  Python's `$` also accepts one
trailing newline, handled in `matchesSnake`. -/
def snakeBody (cs : List Char) : Bool :=
  cs.all (fun c => ('a' ≤ c && c ≤ 'z') || ('0' ≤ c && c ≤ '9') || c = '_')

def snakeChars : List Char → Bool
  | [] => false
  | c :: rest => ('a' ≤ c && c ≤ 'z') && snakeBody rest

/-- Drop a single trailing newline if present (`$` in Python `re`). -/
def dropFinalNewline (cs : List Char) : List Char :=
  match cs.reverse with
  | '\n' :: rest => rest.reverse
  | _ => cs

def matchesSnake (s : String) : Bool :=
  snakeChars (dropFinalNewline s.data)

/-- `re.match(r'^\d+\.\d+\.\d+$', s)`. -/
def digits1 (cs : List Char) : Option (List Char) :=
  match cs.takeWhile Char.isDigit, cs.dropWhile Char.isDigit with
  | [], _ => none
  | _ :: _, rest => some rest

def semverChars (cs : List Char) : Bool :=
  match digits1 cs with
  | none => false
  | some r1 =>
    match r1 with
    | '.' :: r2 =>
      match digits1 r2 with
      | none => false
      | some r3 =>
        match r3 with
        | '.' :: r4 =>
          match digits1 r4 with
          | none => false
          | some r5 => r5 = []
        | _ => false
    | _ => false

def matchesSemver (s : String) : Bool :=
  semverChars (dropFinalNewline s.data)

example : matchesSnake "my_flow" = true := by decide
example : matchesSnake "MyFlow" = false := by decide
example : matchesSemver "1.0.0" = true := by decide
example : matchesSemver "1.0" = false := by decide
example : strContains "widget_name" "id" = true := by decide
example : pyTitle "widget_name" = "Widget_Name" := by decide

/-! ### `json.dumps` and Python value rendering -/

def hexDigitChar (n : Nat) : Char :=
  if n < 10 then Char.ofNat ('0'.toNat + n) else Char.ofNat ('a'.toNat + (n - 10))

/-- One character of `json.dumps` string output (default `ensure_ascii=True`;
non-BMP code points would use surrogate pairs, which no claim exercises). -/
def jsonEscapeChar (c : Char) : List Char :=
  if c = '"' then ['\\', '"']
  else if c = '\\' then ['\\', '\\']
  else if c = '\n' then ['\\', 'n']
  else if c = '\t' then ['\\', 't']
  else if c = '\r' then ['\\', 'r']
  else if c = Char.ofNat 8 then ['\\', 'b']
  else if c = Char.ofNat 12 then ['\\', 'f']
  else if c.toNat < 32 || c.toNat > 126 then
    ['\\', 'u', hexDigitChar (c.toNat / 4096 % 16), hexDigitChar (c.toNat / 256 % 16),
     hexDigitChar (c.toNat / 16 % 16), hexDigitChar (c.toNat % 16)]
  else [c]

def jsonEscape (s : String) : String :=
  "\"" ++ String.mk (s.data.map jsonEscapeChar).flatten ++ "\""

mutual

/-- `json.dumps` with Python's default separators `", "` and `": "`. -/
def dumps : JValue → String
  | .null => "null"
  | .bool true => "true"
  | .bool false => "false"
  | .num n => toString n
  | .str s => jsonEscape s
  | .arr l => "[" ++ dumpsList l ++ "]"
  | .obj fs => "\x7b" ++ dumpsFields fs ++ "\x7d"

def dumpsList : JList → String
  | .nil => ""
  | .cons v .nil => dumps v
  | .cons v (.cons w r) => dumps v ++ ", " ++ dumpsList (.cons w r)

def dumpsFields : JFields → String
  | .nil => ""
  | .cons k v .nil => jsonEscape k ++ ": " ++ dumps v
  | .cons k v (.cons k2 v2 r) =>
    jsonEscape k ++ ": " ++ dumps v ++ ", " ++ dumpsFields (.cons k2 v2 r)

end

mutual

/-- Python `repr` of a parsed-JSON value, used when an f-string interpolates
a list or dict.  (String `repr` quoting of embedded quotes is simplified to
the plain single-quoted form; no claim exercises that corner.) -/
def pyRepr : JValue → String
  | .null => "None"
  | .bool true => "True"
  | .bool false => "False"
  | .num n => toString n
  | .str s => "'" ++ s ++ "'"
  | .arr l => "[" ++ pyReprList l ++ "]"
  | .obj fs => "\x7b" ++ pyReprFields fs ++ "\x7d"

def pyReprList : JList → String
  | .nil => ""
  | .cons v .nil => pyRepr v
  | .cons v (.cons w r) => pyRepr v ++ ", " ++ pyReprList (.cons w r)

def pyReprFields : JFields → String
  | .nil => ""
  | .cons k v .nil => "'" ++ k ++ "': " ++ pyRepr v
  | .cons k v (.cons k2 v2 r) =>
    "'" ++ k ++ "': " ++ pyRepr v ++ ", " ++ pyReprFields (.cons k2 v2 r)

end

/-- Python `str()` / f-string interpolation of a parsed-JSON value. -/
def pyStr : JValue → String
  | .str s => s
  | v => pyRepr v

example : dumps (JValue.objOf [("id", .str "a"), ("n", .num 42)]) =
    "\x7b\"id\": \"a\", \"n\": 42\x7d" := by decide
example : pyStr (.str "plaintext") = "plaintext" := rfl
example : pyStr .null = "None" := rfl

/-! ### The template-reference scanner

`re.findall(r'\{\{steps\.([^.]+)\.outputs\.([^}]+)\}\}', s)`.  Because
`[^.]+` cannot match a dot and `[^}]+` cannot match a brace, the regex
engine's greedy matching with backtracking is equivalent to: take the
maximal dot-free (resp. brace-free) run, then require the following
literal. -/

def refOpen : List Char := "\x7b\x7bsteps.".data
def refMid : List Char := ".outputs.".data
def refClose : List Char := "\x7d\x7d".data

/-- Try to match one `\x7b\x7bsteps.X.outputs.Y\x7d\x7d` reference at the
head of `cs`; on success return the two captures and the rest of the
input after the match. -/
def matchRefAt (cs : List Char) : Option (String × String × List Char) :=
  match stripPre refOpen cs with
  | none => none
  | some cs1 =>
    match cs1.takeWhile (· ≠ '.'), stripPre refMid (cs1.dropWhile (· ≠ '.')) with
    | [], _ => none
    | _, none => none
    | xh :: xt, some cs2 =>
      match cs2.takeWhile (· ≠ '\x7d'), stripPre refClose (cs2.dropWhile (· ≠ '\x7d')) with
      | [], _ => none
      | _, none => none
      | yh :: yt, some rem => some (String.mk (xh :: xt), String.mk (yh :: yt), rem)

theorem stripPre_length {p cs cs' : List Char} (h : stripPre p cs = some cs') :
    cs'.length + p.length = cs.length := by
  induction p generalizing cs cs' with
  | nil => simp [stripPre] at h; simp [h]
  | cons a ps ih =>
    cases cs with
    | nil => simp [stripPre] at h
    | cons c cs =>
      simp only [stripPre] at h
      split at h
      · have := ih h
        simp [List.length_cons]
        omega
      · exact absurd h (by simp)

theorem length_dropWhile_le (p : Char → Bool) (l : List Char) :
    (l.dropWhile p).length ≤ l.length := by
  induction l with
  | nil => simp [List.dropWhile]
  | cons c cs ih =>
    by_cases h : p c
    · have := ih
      simp only [List.dropWhile_cons, h, if_true, List.length_cons]
      omega
    · simp [List.dropWhile_cons, h]

theorem matchRefAt_length {cs : List Char} {x y : String} {rem : List Char}
    (h : matchRefAt cs = some (x, y, rem)) : rem.length < cs.length := by
  unfold matchRefAt at h
  split at h
  · exact absurd h (by simp)
  rename_i cs1 h1
  have hl1 := stripPre_length h1
  have hd1 := length_dropWhile_le (· ≠ '.') cs1
  split at h
  · exact absurd h (by simp)
  · exact absurd h (by simp)
  rename_i xh xt cs2 hx h2
  have hl2 := stripPre_length h2
  have hd2 := length_dropWhile_le (· ≠ '\x7d') cs2
  split at h
  · exact absurd h (by simp)
  · exact absurd h (by simp)
  rename_i yh yt rem' hy h3
  have hl3 := stripPre_length h3
  simp only [Option.some.injEq, Prod.mk.injEq] at h
  obtain ⟨-, -, hr⟩ := h
  subst hr
  have e1 : refOpen.length = 8 := by decide
  have e2 : refMid.length = 9 := by decide
  have e3 : refClose.length = 2 := by decide
  omega

/-- One scan step per unit of fuel.  Each step strictly consumes input, so
with `fuel = cs.length` (see `findRefsChars`) this is exactly the
left-to-right, non-overlapping scan `re.findall` performs; the fuel is
only a structural-termination device. -/
def findRefsGo : Nat → List Char → List (String × String)
  | 0, _ => []
  | fuel + 1, cs =>
    match matchRefAt cs with
    | some (x, y, rem) => (x, y) :: findRefsGo fuel rem
    | none =>
      match cs with
      | [] => []
      | _ :: rest => findRefsGo fuel rest

def findRefsChars (cs : List Char) : List (String × String) :=
  findRefsGo cs.length cs

def findRefs (s : String) : List (String × String) :=
  findRefsChars s.data

example :
    findRefs "\x7b\x7bsteps.a.outputs.order_id\x7d\x7d and \x7b\x7bsteps.b.outputs.x\x7d\x7d" =
      [("a", "order_id"), ("b", "x")] := by decide
example : findRefs "\x7b\x7bsteps.a.b.outputs.y\x7d\x7d" = [] := by decide

/-! ### Credential-pattern search (`_audit_security` regexes)

Each pattern has the shape `name["\']?\s*[:=]\s*["\'][^"\']+["\']`.  The
optional-quote and greedy pieces are deterministic here: if a quote is
present it must be consumed (skipping it leaves `\s*[:=]` facing a quote),
and `[^"\']+` cannot be shortened across a quote, so greedy matching
without backtracking is exact. -/

def pySpace (c : Char) : Bool :=
  c = ' ' || c = '\t' || c = '\n' || c = '\r' || c = '\x0b' || c = '\x0c'

/-- Match `["\']?\s*[:=]\s*["\'][^"\']+["\']` at the head of `cs`. -/
def credTail (cs : List Char) : Bool :=
  let cs1 := match cs with
    | c :: r => if c = '"' || c = '\'' then r else cs
    | [] => []
  match cs1.dropWhile pySpace with
  | c :: r =>
    if c = ':' || c = '=' then
      match r.dropWhile pySpace with
      | q :: r3 =>
        if q = '"' || q = '\'' then
          match r3.takeWhile (fun c => !(c = '"' || c = '\'')),
              r3.dropWhile (fun c => !(c = '"' || c = '\'')) with
          | [], _ => false
          | _ :: _, q2 :: _ => q2 = '"' || q2 = '\''
          | _ :: _, [] => false
        else false
      | [] => false
    else false
  | [] => false

/-- `re.search` for `name` followed by `credTail`, at any position. -/
def searchCred (name : List Char) : List Char → Bool
  | [] => false
  | c :: rest =>
    (match stripPre name (c :: rest) with
     | some tail => credTail tail
     | none => false) || searchCred name rest

/-- The name part of `api[_-]?key` (the optional separator is likewise
deterministic: `key` can never start at the separator character). -/
def apiKeyAt (cs : List Char) : Option (List Char) :=
  match stripPre "api".data cs with
  | none => none
  | some r =>
    match r with
    | c :: r2 =>
      if c = '_' || c = '-' then stripPre "key".data r2 else stripPre "key".data r
    | [] => none

def searchApiKey : List Char → Bool
  | [] => false
  | c :: rest =>
    (match apiKeyAt (c :: rest) with
     | some tail => credTail tail
     | none => false) || searchApiKey rest

example : searchCred "password".data "x, \"password\": \"hunter2\", y".data = true := by
  decide
example : searchCred "password".data "\"password_policy\": \"strict\"".data = false := by
  decide

/-! ### The result aggregator (`self.errors` / `self.warnings` / `self.info`) -/

structure VState where
  errors : List String
  warnings : List String
  info : List String
deriving DecidableEq, Repr

def VState.empty : VState := ⟨[], [], []⟩

def addErr (m : String) (s : VState) : VState := { s with errors := s.errors ++ [m] }

def addWarn (m : String) (s : VState) : VState := { s with warnings := s.warnings ++ [m] }

def addInfo (m : String) (s : VState) : VState := { s with info := s.info ++ [m] }

/-! ### `WorkflowValidator` checks -/

def requiredKeys : List String := ["metadata", "inputs", "security", "steps"]

def validKeys : List String :=
  ["metadata", "inputs", "security", "validation",
   "steps", "execution_config", "observability", "documentation"]

/-- Python renders the `unknown` set in hash order; only membership in the
message is observable to any claim, so insertion order is used here. -/
def renderStrSet (l : List String) : String :=
  "\x7b" ++ String.intercalate ", " (l.map (fun k => "'" ++ k ++ "'")) ++ "\x7d"

def validateStructure (workflow : JValue) (s : VState) : VState :=
  let s := requiredKeys.foldl
    (fun s k => if jhas workflow k then s
                else addErr ("Missing required key: '" ++ k ++ "'") s) s
  let unknown := (jkeys workflow).filter (fun k => !validKeys.contains k)
  if unknown.isEmpty then s
  else addWarn ("Unknown top-level keys: " ++ renderStrSet unknown) s

def metadataRequired : List String :=
  ["workflow_name", "workflow_id", "platform", "schema_version"]

def validateMetadata (metadata : JValue) (s : VState) : VState :=
  let s := metadataRequired.foldl
    (fun s f => if jhas metadata f then s
                else addErr ("metadata." ++ f ++ " is required") s) s
  let s := match jget metadata "workflow_name" with
    | some (.str name) =>
      if matchesSnake name then s
      else addErr ("workflow_name '" ++ name ++
        "' must be snake_case starting with a letter") s
    | some _ => s  -- `re.match` on a non-string raises TypeError in Python
    | none => s
  let s := match jget metadata "schema_version" with
    | some (.str version) =>
      if matchesSemver version then s
      else addErr ("schema_version '" ++ version ++ "' must be semver (e.g., 1.0.0)") s
    | some _ => s
    | none => s
  if jhas metadata "idempotent" then s
  else addWarn "Consider declaring 'idempotent' status in metadata" s

def validateInputParam (s : VState) (p : String × JValue) : VState :=
  let (name, param) := p
  let s := if jhas param "type" then s
           else addErr ("Input '" ++ name ++ "' missing 'type' field") s
  let s := if jhas param "description" then s
           else addWarn ("Input '" ++ name ++ "' missing description") s
  let isStringType := match jget param "type" with
    | some v => jIsStr v "string"
    | none => false
  if isStringType && !jhas param "validation" then
    addInfo ("Input '" ++ name ++
      "' (string) has no validation rules (consider adding pattern/length)") s
  else s

def validateInputs (inputs : JValue) (s : VState) : VState :=
  if !jhas inputs "required" && !jhas inputs "optional" then
    addWarn "No inputs defined (required or optional)" s
  else
    (jfields (jgetD inputs "required" (JValue.objOf []))).foldl validateInputParam s

def allowedSecrets : List String := ["runtime_injected", "vault", "env_var"]

def validateSecurity (security : JValue) (s : VState) : VState :=
  if !jTruthy security then
    addErr "Security configuration is required" s
  else
    let s := if jhas security "auth_required" then s
             else addErr "security.auth_required must be declared" s
    let s :=
      if !jhas security "secrets_handling" then
        addErr "security.secrets_handling must be declared" s
      else if !(allowedSecrets.any (fun a => jIsStr (jgetD security "secrets_handling" .null) a)) then
        addErr ("Invalid secrets_handling: " ++ pyStr (jgetD security "secrets_handling" .null)) s
      else s
    let isRuntimeInjected := match jget security "secrets_handling" with
      | some v => jIsStr v "runtime_injected"
      | none => false
    let s :=
      if isRuntimeInjected then
        addInfo "[+] Credential-agnostic design (runtime_injected)" s
      else
        addWarn "Consider using 'runtime_injected' for better security" s
    let s := if jhas security "minimum_role" then s
             else addWarn "Consider specifying 'minimum_role' for RBAC" s
    if jhas security "rate_limit" then s
    else addWarn "Consider adding rate_limit configuration" s

/-- Python f-string of `step.get(k)`: `None` when the key is absent. -/
def pyStrOpt : Option JValue → String
  | some v => pyStr v
  | none => "None"

def allowedOps : List String := ["query", "mutation", "workflow", "custom"]

def opAllowed (o : Option JValue) : Bool :=
  match o with
  | some v => allowedOps.any (fun a => jIsStr v a)
  | none => false

/-- The body of the per-step loop of `_validate_steps`, threading the
accumulated `step_ids` set.  (Python builds a `set`, so a non-hashable id
value would raise there; all claims use string ids.) -/
def validateStep (acc : VState × List JValue) (iStep : Nat × JValue) : VState × List JValue :=
  let (s, stepIds) := acc
  let (i, step) := iStep
  if !jhas step "id" then
    (addErr ("Step " ++ toString (i + 1) ++ " missing 'id' field") s, stepIds)
  else
    let stepId := jgetD step "id" .null
    let s := if stepIds.contains stepId then
        addErr ("Duplicate step ID: '" ++ pyStr stepId ++ "'") s
      else s
    let stepIds := if stepIds.contains stepId then stepIds else stepIds ++ [stepId]
    let s := match stepId with
      | .str sid =>
        if matchesSnake sid then s
        else addErr ("Step ID '" ++ sid ++ "' must be snake_case starting with a letter") s
      | _ => s  -- `re.match` on a non-string id raises TypeError in Python
    let s := ["operation", "api_endpoint"].foldl
      (fun s f => if jhas step f then s
                  else addErr ("Step '" ++ pyStr stepId ++ "' missing '" ++ f ++ "' field") s) s
    let s :=
      if opAllowed (jget step "operation") then s
      else addErr ("Step '" ++ pyStr stepId ++ "' has invalid operation: " ++
        pyStrOpt (jget step "operation")) s
    let s := if jhas step "error_handling" then s
      else addWarn ("Step '" ++ pyStr stepId ++ "' has no error_handling configuration") s
    let isMutation := match jget step "operation" with
      | some v => jIsStr v "mutation"
      | none => false
    let s :=
      if isMutation && !jhas step "outputs" then
        addWarn ("Mutation step '" ++ pyStr stepId ++
          "' should declare 'outputs' for downstream dependencies") s
      else s
    let s := if jhas step "telemetry" then s
      else addInfo ("Step '" ++ pyStr stepId ++ "' has no telemetry configuration") s
    (s, stepIds)

def validateSteps (steps : JValue) (s : VState) : VState :=
  if !jTruthy steps then
    addErr "Workflow must have at least one step" s
  else
    ((pyIter steps).enum.foldl validateStep (s, [])).1

/-! ### `_validate_dependencies` and `_has_circular_dependency` -/

/-- `{step['id'] for step in steps if 'id' in step}` (a set: deduplicated,
first-occurrence order). -/
def stepIdSet (steps : List JValue) : List JValue :=
  steps.foldl
    (fun acc st => match jget st "id" with
      | some v => if acc.contains v then acc else acc ++ [v]
      | none => acc) []

def depMsg (stepId dep : JValue) : String :=
  "Step '" ++ pyStr stepId ++ "' depends on unknown step '" ++ pyStr dep ++ "'"

def circMsg : String := "Circular dependency detected in workflow steps"

def validateDepsStep (ids : List JValue) (s : VState) (step : JValue) : VState :=
  let stepId := jgetD step "id" (.str "unknown")
  (pyIter (jgetD step "depends_on" (JValue.arrOf []))).foldl
    (fun s dep => if ids.contains dep then s else addErr (depMsg stepId dep) s) s

/-- Insert into the dict-comprehension graph: Python keeps the insertion
position of an existing key and overwrites its value (last value wins). -/
def dictInsertG (k : JValue) (v : List JValue) :
    List (JValue × List JValue) → List (JValue × List JValue)
  | [] => [(k, v)]
  | (k', v') :: rest =>
    if k' = k then (k', v) :: rest else (k', v') :: dictInsertG k v rest

/-- One step of the graph dict comprehension. -/
def buildGraphStep (g : List (JValue × List JValue)) (st : JValue) :
    List (JValue × List JValue) :=
  match jget st "id" with
  | some k => dictInsertG k (pyIter (jgetD st "depends_on" (JValue.arrOf []))) g
  | none => g

/-- `{step['id']: step.get('depends_on', []) for step in steps if 'id' in step}`. -/
def buildGraph (steps : List JValue) : List (JValue × List JValue) :=
  steps.foldl buildGraphStep []

/-- `graph.get(node, [])`. -/
def graphGet (g : List (JValue × List JValue)) (k : JValue) : List JValue :=
  match g with
  | [] => []
  | (k', v) :: rest => if k' = k then v else graphGet rest k

/-- The neighbor loop of `dfs`, parameterised by the recursive visit so each
recursion stays structural.  Mirrors: unvisited neighbor → recurse (true
propagates, false continues with the grown visited set); visited neighbor on
the active recursion stack → cycle. -/
def dfsGo (recur : JValue → List JValue → List JValue → Bool × List JValue) :
    List JValue → List JValue → List JValue → Bool × List JValue
  | [], v, _ => (false, v)
  | nb :: rest, v, rs =>
    if nb ∈ v then
      if nb ∈ rs then (true, v) else dfsGo recur rest v rs
    else
      match recur nb v rs with
      | (true, v') => (true, v')
      | (false, v') => dfsGo recur rest v' rs

/-- `dfs(node)` with `visited` and `rec_stack` passed explicitly (Python
mutates shared sets; a call that returns `False` has restored `rec_stack`,
so only the grown `visited` is returned).  The fuel is a structural-
termination device: every call is on a node not yet in `visited` and marks
it immediately, so the recursion depth is bounded by the number of distinct
nodes and the fuel chosen in `hasCircularDependency` is never exhausted. -/
def dfsF (graph : List (JValue × List JValue)) :
    Nat → JValue → List JValue → List JValue → Bool × List JValue
  | 0, _, v, _ => (true, v)
  | fuel + 1, node, v, rs =>
    dfsGo (dfsF graph fuel) (graphGet graph node) (node :: v) (node :: rs)

def circFuel (graph : List (JValue × List JValue)) : Nat :=
  graph.length + (graph.map (fun p => p.2.length)).sum + 1

/-- `for node in graph: if node not in visited: if dfs(node): return True`. -/
def circTop (graph : List (JValue × List JValue)) :
    List JValue → List JValue → Bool
  | [], _ => false
  | n :: ns, v =>
    if n ∈ v then circTop graph ns v
    else
      match dfsF graph (circFuel graph) n v [] with
      | (true, _) => true
      | (false, v') => circTop graph ns v'

def hasCircularDependency (steps : List JValue) : Bool :=
  let graph := buildGraph steps
  circTop graph (graph.map (fun p => p.1)) []

def validateDependencies (steps : List JValue) (s : VState) : VState :=
  let ids := stepIdSet steps
  let s := steps.foldl (validateDepsStep ids) s
  if hasCircularDependency steps then addErr circMsg s else s

/-! ### `_validate_data_flow` -/

def dfErrMsg (stepId : JValue) (refStep : String) : String :=
  "Step '" ++ pyStr stepId ++ "' references output from unknown step '" ++ refStep ++ "'"

def dfWarnMsg (stepId : JValue) (refField refStep : String) : String :=
  "Step '" ++ pyStr stepId ++ "' references '" ++ refField ++
    "' which is not declared in step '" ++ refStep ++ "' outputs"

def availInsert (k : JValue) (v : List String) :
    List (JValue × List String) → List (JValue × List String)
  | [] => [(k, v)]
  | (k', v') :: rest =>
    if k' = k then (k', v) :: rest else (k', v') :: availInsert k v rest

/-- `ref_step in available_outputs`: the captured name (a string) is compared
against the registered step-id keys. -/
def availGet : List (JValue × List String) → String → Option (List String)
  | [], _ => none
  | (k, v) :: rest, r => if k = JValue.str r then some v else availGet rest r

/-- The findings produced for one `(ref_step, ref_field)` capture. -/
def refFindings (stepId : JValue) (avail : List (JValue × List String))
    (ref : String × String) (s : VState) : VState :=
  match availGet avail ref.1 with
  | none => addErr (dfErrMsg stepId ref.1) s
  | some fields =>
    if fields.contains ref.2 then s else addWarn (dfWarnMsg stepId ref.2 ref.1) s

/-- One iteration of the `_validate_data_flow` loop: scan the serialized
inputs for references, then register this step's declared outputs. -/
def dataFlowStep (acc : VState × List (JValue × List String)) (step : JValue) :
    VState × List (JValue × List String) :=
  let (s, avail) := acc
  let stepId := jgetD step "id" (.str "unknown")
  let refs := findRefs (dumps (jgetD step "inputs" (JValue.objOf [])))
  let s := refs.foldl (fun s r => refFindings stepId avail r s) s
  let avail :=
    if jhas step "outputs" then
      availInsert stepId (jkeys (jgetD step "outputs" .null)) avail
    else avail
  (s, avail)

def validateDataFlow (steps : List JValue) (s : VState) : VState :=
  (steps.foldl dataFlowStep (s, [])).1

/-! ### `_audit_security` and `_check_best_practices` -/

def auditSecurity (workflow : JValue) (s : VState) : VState :=
  let wstr := (pyLower (dumps workflow)).data
  let s := if searchCred "password".data wstr then
      addErr "SECURITY: Possible hardcoded password found in workflow" s
    else s
  let s := if searchCred "token".data wstr then
      addErr "SECURITY: Possible hardcoded token found in workflow" s
    else s
  let s := if searchApiKey wstr then
      addErr "SECURITY: Possible hardcoded API key found in workflow" s
    else s
  let s := if searchCred "secret".data wstr then
      addErr "SECURITY: Possible hardcoded secret found in workflow" s
    else s
  let observability := jgetD workflow "observability" (JValue.objOf [])
  let audit := jgetD observability "audit" (JValue.objOf [])
  if jTruthy (jgetD audit "log_inputs" .null) &&
      !jTruthy (jgetD (jgetD workflow "security" (JValue.objOf [])) "pii_fields" .null) then
    addWarn "Audit logs inputs but no PII fields declared - consider privacy implications" s
  else s

def checkBestPractices (workflow : JValue) (s : VState) : VState :=
  let s :=
    if !jhas workflow "documentation" then
      addWarn "No documentation section found" s
    else
      let doc := jgetD workflow "documentation" .null
      if !jhas doc "semantic_gaps" || !jTruthy (jgetD doc "semantic_gaps" .null) then
        addInfo "Consider documenting semantic gaps (UI term â†’ API field)" s
      else s
  let s := if jhas workflow "observability" then s
    else addWarn "No observability configuration found" s
  let s := if jhas workflow "validation" then s
    else addWarn "No validation rules (pre/post conditions) defined" s
  let execConfig := jgetD workflow "execution_config" (JValue.objOf [])
  let s := if jTruthy (jgetD execConfig "dry_run_supported" .null) then s
    else addInfo "Workflow does not support dry-run mode" s
  if jTruthy (jgetD execConfig "rollback_supported" .null) then s
  else addInfo "Workflow does not support rollback on failure" s

/-! ### `WorkflowValidator.validate`: fixed check order, then
`return len(self.errors) == 0` -/

structure WorkflowValidator where
  strict_mode : Bool
deriving DecidableEq, Repr

/-- All accumulated findings of one `validate` run.  `strict_mode` is stored
by `__init__` but never read during validation (only the CLI exit-code layer
consults it), which is exactly what the `self` parameter being unused
expresses. -/
def WorkflowValidator.findings (_self : WorkflowValidator) (workflow : JValue) : VState :=
  let s := validateStructure workflow VState.empty
  let s := validateMetadata (jgetD workflow "metadata" (JValue.objOf [])) s
  let s := validateInputs (jgetD workflow "inputs" (JValue.objOf [])) s
  let s := validateSecurity (jgetD workflow "security" (JValue.objOf [])) s
  let s := validateSteps (jgetD workflow "steps" (JValue.arrOf [])) s
  let s := validateDependencies (pyIter (jgetD workflow "steps" (JValue.arrOf []))) s
  let s := validateDataFlow (pyIter (jgetD workflow "steps" (JValue.arrOf []))) s
  let s := auditSecurity workflow s
  checkBestPractices workflow s

def WorkflowValidator.validate (self : WorkflowValidator) (workflow : JValue) : Bool :=
  (self.findings workflow).errors.isEmpty

/-! ### `DryRunExecutor`

`uuid.uuid4().hex[:8]` and `datetime.now().isoformat()` are nondeterministic
inputs of the run; they are modelled as parameters `hexOf` (fresh hex per
output field) and `now`, matching the spec note that the random source is
injectable. -/

/-- `_simulate_outputs`: first-match rule per declared output field name:
id > name > date/time > count > default. -/
def simulateOutputs (hexOf : String → String) (now : String) (step : JValue) :
    List (String × JValue) :=
  (jfields (jgetD step "outputs" (JValue.objOf []))).map (fun kv =>
    let key := kv.1
    if strContains (pyLower key) "id" then
      (key, .str ("mock_" ++ key ++ "_" ++ hexOf key))
    else if strContains (pyLower key) "name" then
      (key, .str ("Mock " ++ pyTitle key))
    else if strContains (pyLower key) "date" || strContains (pyLower key) "time" then
      (key, .str now)
    else if strContains (pyLower key) "count" then
      (key, .num 42)
    else
      (key, .str ("<mock_" ++ key ++ ">")))

/-- The memo-table `self.simulated_outputs`, keyed by the recorded step-id
value (dict assignment overwrites in place). -/
def memoInsert (k : JValue) (v : List (String × JValue)) :
    List (JValue × List (String × JValue)) → List (JValue × List (String × JValue))
  | [] => [(k, v)]
  | (k', v') :: rest =>
    if k' = k then (k', v) :: rest else (k', v') :: memoInsert k v rest

/-- `step_id in self.simulated_outputs` for a captured string. -/
def memoGetS : List (JValue × List (String × JValue)) → String →
    Option (List (String × JValue))
  | [], _ => none
  | (k, v) :: rest, r => if k = JValue.str r then some v else memoGetS rest r

/-- `dep in self.simulated_outputs` for a dependency value. -/
def memoHas : List (JValue × List (String × JValue)) → JValue → Bool
  | [], _ => false
  | (k, _) :: rest, dep => k = dep || memoHas rest dep

/-- The `replace_ref` substitution pass of `_resolve_inputs`
(`re.sub` over the `\x7b\x7bsteps.X.outputs.Y\x7d\x7d` pattern; fuel as in
`findRefsGo`). -/
def resolveRefPass (memo : List (JValue × List (String × JValue))) :
    Nat → List Char → List Char
  | 0, _ => []
  | fuel + 1, cs =>
    match matchRefAt cs with
    | some (x, y, rem) =>
      (match memoGetS memo x with
       | some outs =>
         (pyStr ((jlookup y outs).getD (.str ("<" ++ y ++ ">")))).data
       | none => ("<unresolved:" ++ x ++ "." ++ y ++ ">").data)
      ++ resolveRefPass memo fuel rem
    | none =>
      match cs with
      | [] => []
      | c :: rest => c :: resolveRefPass memo fuel rest

/-- Match `\x7b\x7binputs.Z\x7d\x7d` at the head of the input. -/
def matchInputAt (cs : List Char) : Option (String × List Char) :=
  match stripPre "\x7b\x7binputs.".data cs with
  | none => none
  | some cs1 =>
    match cs1.takeWhile (· ≠ '\x7d'), stripPre "\x7d\x7d".data (cs1.dropWhile (· ≠ '\x7d')) with
    | [], _ => none
    | _, none => none
    | zh :: zt, some rem => some (String.mk (zh :: zt), rem)

/-- The second `re.sub` pass: `\x7b\x7binputs.Z\x7d\x7d` → `<input:Z>`. -/
def resolveInputPass : Nat → List Char → List Char
  | 0, _ => []
  | fuel + 1, cs =>
    match matchInputAt cs with
    | some (z, rem) => ("<input:" ++ z ++ ">").data ++ resolveInputPass fuel rem
    | none =>
      match cs with
      | [] => []
      | c :: rest => c :: resolveInputPass fuel rest

def resolveString (memo : List (JValue × List (String × JValue))) (s : String) : String :=
  let p1 := resolveRefPass memo s.data.length s.data
  String.mk (resolveInputPass p1.length p1)

mutual

/-- `_resolve_inputs`: recursive template interpolation over dicts, lists
and strings; other values pass through unchanged. -/
def resolveInputs (memo : List (JValue × List (String × JValue))) : JValue → JValue
  | .obj fs => .obj (resolveInputsF memo fs)
  | .arr l => .arr (resolveInputsL memo l)
  | .str s => .str (resolveString memo s)
  | v => v

def resolveInputsL (memo : List (JValue × List (String × JValue))) : JList → JList
  | .nil => .nil
  | .cons v r => .cons (resolveInputs memo v) (resolveInputsL memo r)

def resolveInputsF (memo : List (JValue × List (String × JValue))) : JFields → JFields
  | .nil => .nil
  | .cons k v r => .cons k (resolveInputs memo v) (resolveInputsF memo r)

end

/-- `_simulate_step`: always returns `True`; the memo-table gains an entry
(recorded under `step.get('id', 'unknown')`) only for the `query` and
`mutation` operations — `workflow` only prints a skip message and every
other operation (including `custom`) falls through the dispatch with no
entry recorded. -/
def simulateStep (hexOf : String → String) (now : String)
    (memo : List (JValue × List (String × JValue))) (step : JValue) :
    List (JValue × List (String × JValue)) :=
  let stepId := jgetD step "id" (.str "unknown")
  let operation := jgetD step "operation" (.str "unknown")
  -- inputs are resolved for display only; the result never affects control flow
  let _ := resolveInputs memo (jgetD step "inputs" (JValue.objOf []))
  if jIsStr operation "query" then
    memoInsert stepId (simulateOutputs hexOf now step) memo
  else if jIsStr operation "mutation" then
    memoInsert stepId (simulateOutputs hexOf now step) memo
  else
    memo

/-- `_execute_steps`: declared order; every `depends_on` entry must already
be a memo-table key, else the run aborts at once with a
dependency-not-satisfied fault (modelled as `.error (step id, dep)`, which
Python reports as `ERROR: Dependency '<dep>' not satisfied` + `return False`). -/
def executeSteps (hexOf : String → String) (now : String) :
    Nat → List JValue → List (JValue × List (String × JValue)) →
    Except (String × String) (List (JValue × List (String × JValue)))
  | _, [], memo => .ok memo
  | i, step :: rest, memo =>
    let stepId := jgetD step "id" (.str ("step_" ++ toString (i + 1)))
    let depends := pyIter (jgetD step "depends_on" (JValue.arrOf []))
    match depends.find? (fun dep => !memoHas memo dep) with
    | some dep => .error (pyStr stepId, pyStr dep)
    | none => executeSteps hexOf now (i + 1) rest (simulateStep hexOf now memo step)

/-- `_simulate_condition`: every branch returns `True`. -/
def simulateCondition (condition : JValue) : Bool :=
  let condType := jgetD condition "type" (.str "unknown")
  let condId := pyStr (jgetD condition "id" (.str "unknown"))
  if strContains condId "check_auth" || jIsStr condType "security" then true
  else if strContains condId "exists" || strContains condId "unique" then true
  else true

/-- `_check_pre_conditions`: `all_passed` starts `True` and is cleared only
when a critical condition fails — which `simulateCondition` never reports. -/
def checkPreConditions (workflow : JValue) : Bool :=
  (pyIter (jgetD (jgetD workflow "validation" (JValue.objOf []))
      "pre_conditions" (JValue.arrOf []))).foldl
    (fun allPassed condition =>
      if !simulateCondition condition && jTruthy (jgetD condition "critical" (.bool true))
      then false else allPassed) true

/-- `_check_post_conditions`: every post-condition is printed as skipped and
`all_passed` is never cleared. -/
def checkPostConditions (_workflow : JValue) : Bool := true

/-- `DryRunExecutor.execute`.  The opening banner subscripts
`workflow['metadata']['workflow_name']` and `workflow['metadata']['platform']`
directly (no `.get`), so a missing metadata section or missing name/platform
key raises instead of returning a result; that raise is the `.error` case.
All later section lookups go through `.get` with defaults. -/
def DryRunExecutor.execute (hexOf : String → String) (now : String)
    (workflow : JValue) : Except String Bool :=
  match jget workflow "metadata" with
  | none => .error "KeyError: 'metadata'"
  | some md =>
    match md with
    | .obj _ =>
      match jget md "workflow_name" with
      | none => .error "KeyError: 'workflow_name'"
      | some _ =>
        match jget md "platform" with
        | none => .error "KeyError: 'platform'"
        | some _ =>
          if !checkPreConditions workflow then .ok false
          else
            match executeSteps hexOf now 0
                (pyIter (jgetD workflow "steps" (JValue.arrOf []))) [] with
            | .error _ => .ok false
            | .ok _ => .ok (checkPostConditions workflow)
    | _ => .error "TypeError: metadata value is not subscriptable by string"

/-! ### Concrete nondeterminism stubs shared by witnesses -/

def hexZero : String → String := fun _ => "00000000"

def nowIso : String := "2026-01-01T00:00:00.000000"

/-! ### Claim theorems -/

/-- C1: for every workflow definition (and either strict-mode setting),
`WorkflowValidator.validate` returns `true` exactly when the run accumulated
no error-severity findings; warnings and info findings alone never make it
return `false`, since the return value is `len(self.errors) == 0`. -/
theorem C1_validate_true_iff_no_errors (self : WorkflowValidator) (workflow : JValue) :
    self.validate workflow = true ↔ (self.findings workflow).errors = [] := by
  simp [WorkflowValidator.validate, List.isEmpty_iff]

/-- C9: the strict-mode flag stored by `__init__` is never read while
validating, so two validators that differ only in `strict_mode` produce
identical error/warning/info sequences and the same `validate()` result on
every workflow. -/
theorem C9_strict_mode_invisible (b1 b2 : Bool) (workflow : JValue) :
    WorkflowValidator.findings ⟨b1⟩ workflow = WorkflowValidator.findings ⟨b2⟩ workflow ∧
    WorkflowValidator.validate ⟨b1⟩ workflow = WorkflowValidator.validate ⟨b2⟩ workflow :=
  ⟨rfl, rfl⟩

/-- C3 counterexample: the claim says `"widget_name"` synthesizes
`"Mock Widget_Name"`, but `"widget_name".lower()` contains `"id"` (inside
`"w·id·get"`), so the first matching rule is the id rule and the code
synthesizes `"mock_widget_name_"` + 8 hex chars instead. -/
theorem C3_counterexample :
    simulateOutputs hexZero nowIso
        (JValue.objOf [("outputs", JValue.objOf [("widget_name", .str "$.name")])]) =
      [("widget_name", .str "mock_widget_name_00000000")] ∧
    [(("widget_name" : String), JValue.str "mock_widget_name_00000000")] ≠
      [(("widget_name" : String), JValue.str "Mock Widget_Name")] := by
  exact ⟨rfl, by decide⟩

/-- C3 amended: mock-output synthesis applies the first matching rule in
priority order id > name > date/time > count > default; `"customer_count"`
synthesizes the integer 42, `"created_date"` the current ISO timestamp,
`"status"` the string `"<mock_status>"`, and `"widget_name"` — whose name
contains `"id"` — synthesizes `"mock_widget_name_"` followed by the 8 random
hex characters, because the id rule fires before the name rule. -/
theorem C3_amended (hexOf : String → String) (now : String) (key : String) (v : JValue)
    (h : strContains (pyLower key) "id" = true) :
    simulateOutputs hexOf now
        (JValue.objOf [("outputs", JValue.objOf
          [("customer_count", .str "$.count"), ("created_date", .str "$.created"),
           ("widget_name", .str "$.name"), ("status", .str "$.status")])]) =
      [("customer_count", .num 42), ("created_date", .str now),
       ("widget_name", .str ("mock_widget_name_" ++ hexOf "widget_name")),
       ("status", .str "<mock_status>")] ∧
    simulateOutputs hexOf now (JValue.objOf [("outputs", JValue.objOf [(key, v)])]) =
      [(key, .str ("mock_" ++ key ++ "_" ++ hexOf key))] := by
  constructor
  · simp +decide [simulateOutputs, JValue.objOf, jgetD, jget, JFields.ofList,
      JFields.toList, jlookup, jfields]
  · simp [simulateOutputs, JValue.objOf, jgetD, jget, JFields.ofList, JFields.toList,
      jlookup, jfields, h]

/-- C3 amended witness at a concrete key containing "id". -/
theorem C3_amended_witness :
    strContains (pyLower "order_id") "id" = true ∧
    simulateOutputs hexZero nowIso
        (JValue.objOf [("outputs", JValue.objOf [("order_id", .str "$.id")])]) =
      [("order_id", .str ("mock_" ++ "order_id" ++ "_" ++ hexZero "order_id"))] :=
  ⟨by decide, (C3_amended hexZero nowIso "order_id" (.str "$.id") (by decide)).2⟩

/-! ### C4 -/

def wfStepSub : JValue := JValue.objOf
  [("id", .str "step_a"), ("operation", .str "workflow"),
   ("api_endpoint", .str "wf://sub"), ("workflow_ref", .str "sub_flow")]

def wfStepUse : JValue := JValue.objOf
  [("id", .str "step_b"), ("operation", .str "query"),
   ("api_endpoint", .str "q://items"), ("depends_on", JValue.arrOf [.str "step_a"])]

def wfC4 : JValue := JValue.objOf
  [("metadata", JValue.objOf
      [("workflow_name", .str "demo_flow"), ("platform", .str "demo")]),
   ("steps", JValue.arrOf [wfStepSub, wfStepUse])]

/-- C4 counterexample: a `workflow`-operation step is processed without
aborting but records no memo-table entry, so the very next step that
depends on it aborts the run with a dependency-not-satisfied fault —
contradicting the claim that every non-aborting step leaves an entry. -/
theorem C4_counterexample :
    simulateStep hexZero nowIso [] wfStepSub = [] ∧
    executeSteps hexZero nowIso 0 [wfStepSub, wfStepUse] [] =
      .error ("step_b", "step_a") ∧
    DryRunExecutor.execute hexZero nowIso wfC4 = .ok false :=
  ⟨rfl, rfl, rfl⟩

theorem memoHas_memoInsert (k : JValue) (v : List (String × JValue))
    (memo : List (JValue × List (String × JValue))) :
    memoHas (memoInsert k v memo) k = true := by
  induction memo with
  | nil => simp [memoInsert, memoHas]
  | cons p rest ih =>
    obtain ⟨k', v'⟩ := p
    by_cases h : k' = k
    · simp [memoInsert, memoHas, h]
    · simp [memoInsert, memoHas, h, ih]

/-- C4 amended: `_simulate_step` records a memo-table entry under
`step.get('id', 'unknown')` exactly for the `query` and `mutation`
operations; for `workflow`, `custom` and every other operation the
memo-table is left unchanged, so a later step that depends on such a step
does hit the dependency-not-satisfied fault (see the counterexample). -/
theorem C4_amended (hexOf : String → String) (now : String)
    (memo : List (JValue × List (String × JValue))) (step : JValue) :
    (simulateStep hexOf now memo step =
      if jIsStr (jgetD step "operation" (.str "unknown")) "query"
          || jIsStr (jgetD step "operation" (.str "unknown")) "mutation" then
        memoInsert (jgetD step "id" (.str "unknown")) (simulateOutputs hexOf now step) memo
      else memo) ∧
    memoHas
      (memoInsert (jgetD step "id" (.str "unknown")) (simulateOutputs hexOf now step) memo)
      (jgetD step "id" (.str "unknown")) = true := by
  constructor
  · by_cases hq : jIsStr (jgetD step "operation" (.str "unknown")) "query"
    · simp [simulateStep, hq]
    · by_cases hm : jIsStr (jgetD step "operation" (.str "unknown")) "mutation"
      · simp [simulateStep, hq, hm]
      · simp [simulateStep, hq, hm]
  · exact memoHas_memoInsert _ _ _

/-! ### C5 -/

theorem memoHas_memoInsert_ne {k x : JValue} (h : k ≠ x) (v : List (String × JValue))
    (memo : List (JValue × List (String × JValue))) :
    memoHas (memoInsert k v memo) x = memoHas memo x := by
  induction memo with
  | nil => simp [memoInsert, memoHas, h]
  | cons p rest ih =>
    obtain ⟨k', v'⟩ := p
    by_cases hk : k' = k
    · subst hk
      simp [memoInsert, memoHas, h]
    · simp [memoInsert, memoHas, hk, ih]

theorem memoHas_simulateStep_ne (hexOf : String → String) (now : String)
    (memo : List (JValue × List (String × JValue))) (step : JValue) {x : JValue}
    (h : jgetD step "id" (.str "unknown") ≠ x) :
    memoHas (simulateStep hexOf now memo step) x = memoHas memo x := by
  unfold simulateStep
  by_cases hq : jIsStr (jgetD step "operation" (.str "unknown")) "query"
  · simp [hq, memoHas_memoInsert_ne h]
  · by_cases hm : jIsStr (jgetD step "operation" (.str "unknown")) "mutation"
    · simp [hq, hm, memoHas_memoInsert_ne h]
    · simp [hq, hm]

/-- If some step's `depends_on` names a value that is not a memo key and is
never recorded by any earlier step in the list, the step loop aborts with a
dependency fault. -/
theorem executeSteps_abort (hexOf : String → String) (now : String) :
    ∀ (l₁ : List JValue) (S : JValue) (l₂ : List JValue) (i : Nat)
      (memo : List (JValue × List (String × JValue))) (d : JValue),
      d ∈ pyIter (jgetD S "depends_on" (JValue.arrOf [])) →
      memoHas memo d = false →
      (∀ p ∈ l₁, jgetD p "id" (.str "unknown") ≠ d) →
      ∃ sid dp, executeSteps hexOf now i (l₁ ++ S :: l₂) memo = .error (sid, dp) := by
  intro l₁
  induction l₁ with
  | nil =>
    intro S l₂ i memo d hdep hmemo _
    have hsome : ((pyIter (jgetD S "depends_on" (JValue.arrOf []))).find?
        (fun dep => !memoHas memo dep)).isSome := by
      rw [List.find?_isSome]
      exact ⟨d, hdep, by simp [hmemo]⟩
    obtain ⟨dep, hfind⟩ := Option.isSome_iff_exists.mp hsome
    exact ⟨pyStr (jgetD S "id" (.str ("step_" ++ toString (i + 1)))), pyStr dep,
      by simp [executeSteps, hfind]⟩
  | cons q l₁' ih =>
    intro S l₂ i memo d hdep hmemo hl₁
    cases hfind : (pyIter (jgetD q "depends_on" (JValue.arrOf []))).find?
        (fun dep => !memoHas memo dep) with
    | some dep =>
      exact ⟨pyStr (jgetD q "id" (.str ("step_" ++ toString (i + 1)))), pyStr dep,
        by simp [executeSteps, hfind]⟩
    | none =>
      have hmemo' : memoHas (simulateStep hexOf now memo q) d = false := by
        rw [memoHas_simulateStep_ne hexOf now memo q (hl₁ q (List.mem_cons_self q _))]
        exact hmemo
      obtain ⟨sid, dp, herr⟩ := ih S l₂ (i + 1) (simulateStep hexOf now memo q) d hdep hmemo'
        (fun p hp => hl₁ p (List.mem_cons_of_mem q hp))
      exact ⟨sid, dp, by simp [executeSteps, hfind, herr]⟩

theorem simulateCondition_true (c : JValue) : simulateCondition c = true := by
  simp [simulateCondition]

theorem foldl_pre_true (l : List JValue) (b : Bool) :
    l.foldl (fun allPassed condition =>
      if !simulateCondition condition && jTruthy (jgetD condition "critical" (JValue.bool true))
      then false else allPassed) b = b := by
  induction l generalizing b with
  | nil => rfl
  | cons c rest ih =>
    rw [List.foldl_cons, show (if !simulateCondition c &&
        jTruthy (jgetD c "critical" (JValue.bool true)) then false else b) = b from by
      simp [simulateCondition_true]]
    exact ih b

theorem checkPreConditions_true (wf : JValue) : checkPreConditions wf = true := by
  unfold checkPreConditions
  exact foldl_pre_true _ true

theorem pyIter_arrOf (l : List JValue) : pyIter (JValue.arrOf l) = l := by
  simp [pyIter, JValue.arrOf, jlist_toList_ofList]

/-- C5: in every workflow where some step's `depends_on` names a step id
recorded only by later-declared steps, the dry-run aborts with a
dependency-not-satisfied fault when it reaches the referencing step, and
`execute` returns failure — even though such a workflow may be a perfectly
valid DAG. -/
theorem C5_forward_dep_aborts (hexOf : String → String) (now : String)
    (wf : JValue) (mfl : List (String × JValue))
    (pre post : List JValue) (S d : JValue)
    (hmd : jget wf "metadata" = some (JValue.objOf mfl))
    (hname : (jlookup "workflow_name" mfl).isSome = true)
    (hplat : (jlookup "platform" mfl).isSome = true)
    (hsteps : jget wf "steps" = some (JValue.arrOf (pre ++ S :: post)))
    (hdep : d ∈ pyIter (jgetD S "depends_on" (JValue.arrOf [])))
    (hnotpre : ∀ p ∈ pre, jgetD p "id" (.str "unknown") ≠ d)
    (_hpost : d ∈ post.map (fun p => jgetD p "id" (.str "unknown"))) :
    (∃ sid dp, executeSteps hexOf now 0 (pre ++ S :: post) [] = .error (sid, dp)) ∧
    DryRunExecutor.execute hexOf now wf = .ok false := by
  have habort := executeSteps_abort hexOf now pre S post 0 [] d hdep (by simp [memoHas]) hnotpre
  refine ⟨habort, ?_⟩
  obtain ⟨sid, dp, herr⟩ := habort
  obtain ⟨nv, hnv⟩ := Option.isSome_iff_exists.mp hname
  obtain ⟨pv, hpv⟩ := Option.isSome_iff_exists.mp hplat
  have hwn : jget (JValue.obj (JFields.ofList mfl)) "workflow_name" = some nv := by
    simpa [jget, jfields_toList_ofList] using hnv
  have hpl : jget (JValue.obj (JFields.ofList mfl)) "platform" = some pv := by
    simpa [jget, jfields_toList_ofList] using hpv
  have hsl : jgetD wf "steps" (JValue.arrOf []) = JValue.arrOf (pre ++ S :: post) := by
    simp [jgetD, hsteps]
  unfold DryRunExecutor.execute
  rw [hmd]
  simp only [JValue.objOf]
  rw [hwn, hpl]
  simp [checkPreConditions_true, hsl, pyIter_arrOf, herr]

def wfLater : JValue := JValue.objOf
  [("id", .str "later_step"), ("operation", .str "query"),
   ("api_endpoint", .str "q://later"), ("outputs", JValue.objOf [("record_id", .str "$.id")])]

def wfEarly : JValue := JValue.objOf
  [("id", .str "early_step"), ("operation", .str "query"),
   ("api_endpoint", .str "q://early"), ("depends_on", JValue.arrOf [.str "later_step"])]

def wfC5 : JValue := JValue.objOf
  [("metadata", JValue.objOf
      [("workflow_name", .str "ordered_flow"), ("platform", .str "demo")]),
   ("steps", JValue.arrOf [wfEarly, wfLater])]

/-- C5 witness: a two-step workflow whose first step depends on the second
aborts the dry-run with a dependency fault. -/
theorem C5_forward_dep_aborts_witness :
    (∃ sid dp, executeSteps hexZero nowIso 0 ([] ++ wfEarly :: [wfLater]) [] =
      .error (sid, dp)) ∧
    DryRunExecutor.execute hexZero nowIso wfC5 = .ok false :=
  C5_forward_dep_aborts hexZero nowIso wfC5
    [("workflow_name", .str "ordered_flow"), ("platform", .str "demo")]
    [] [wfLater] wfEarly (.str "later_step")
    rfl rfl rfl rfl (by decide) (by simp) (by decide)

/-! ### C6 -/

def wfNoMeta : JValue := JValue.objOf
  [("inputs", JValue.objOf []),
   ("security", JValue.objOf
      [("auth_required", .bool true), ("secrets_handling", .str "vault")]),
   ("steps", JValue.arrOf [wfLater])]

/-- C6 counterexample: on a parsed JSON-object workflow whose `metadata`
section is absent, `DryRunExecutor.execute` does not terminate normally —
its banner subscripts `workflow['metadata']` directly and raises `KeyError`
instead of returning a result. -/
theorem C6_counterexample :
    DryRunExecutor.execute hexZero nowIso wfNoMeta = .error "KeyError: 'metadata'" ∧
    (DryRunExecutor.execute hexZero nowIso wfNoMeta).isOk = false :=
  ⟨rfl, rfl⟩

/-- C6 amended: `WorkflowValidator.validate` reads every section through
`.get`-style optional lookups and returns its pass/fail result on any
object workflow with absent sections, but `DryRunExecutor.execute` raises
`KeyError` whenever the `metadata` section is absent (its later lookups are
safe `.get` lookups). -/
theorem C6_amended (fields : List (String × JValue)) (self : WorkflowValidator)
    (hexOf : String → String) (now : String)
    (h : jlookup "metadata" fields = none) :
    DryRunExecutor.execute hexOf now (JValue.objOf fields) = .error "KeyError: 'metadata'" ∧
    self.validate (JValue.objOf fields) =
      ((self.findings (JValue.objOf fields)).errors.isEmpty) := by
  constructor
  · have hm : jget (JValue.objOf fields) "metadata" = none := by
      simpa [jget, JValue.objOf, jfields_toList_ofList] using h
    unfold DryRunExecutor.execute
    rw [hm]
  · rfl

/-- C6 amended witness at the concrete metadata-less workflow. -/
theorem C6_amended_witness :
    jlookup "metadata" [("steps", JValue.arrOf [])] = none ∧
    DryRunExecutor.execute hexZero nowIso (JValue.objOf [("steps", JValue.arrOf [])]) =
      .error "KeyError: 'metadata'" :=
  ⟨rfl, (C6_amended [("steps", JValue.arrOf [])] ⟨false⟩ hexZero nowIso rfl).1⟩

/-! ### Data-flow infrastructure for C7 / C10 -/

/-- The availability-registration half of one `_validate_data_flow`
iteration (the `avail` component of `dataFlowStep`). -/
def dfAvailStep (avail : List (JValue × List String)) (step : JValue) :
    List (JValue × List String) :=
  if jhas step "outputs" then
    availInsert (jgetD step "id" (.str "unknown")) (jkeys (jgetD step "outputs" .null)) avail
  else avail

def dfAvail (steps : List JValue) (avail : List (JValue × List String)) :
    List (JValue × List String) :=
  steps.foldl dfAvailStep avail

theorem dataFlowStep_snd (s : VState) (a : List (JValue × List String)) (st : JValue) :
    (dataFlowStep (s, a) st).2 = dfAvailStep a st := rfl

theorem dataFlow_snd : ∀ (steps : List JValue) (s : VState) (a : List (JValue × List String)),
    (steps.foldl dataFlowStep (s, a)).2 = dfAvail steps a := by
  intro steps
  induction steps with
  | nil => intro s a; rfl
  | cons st rest ih =>
    intro s a
    rw [List.foldl_cons,
      show dataFlowStep (s, a) st = ((dataFlowStep (s, a) st).1, dfAvailStep a st) from by
        rw [← dataFlowStep_snd s a st]]
    rw [ih]
    rfl

/-- Finding-accumulation order: `t` extends `s` (membership in each severity
stream is preserved). -/
def VLe (s t : VState) : Prop :=
  (∀ m, m ∈ s.errors → m ∈ t.errors) ∧ (∀ m, m ∈ s.warnings → m ∈ t.warnings)

theorem VLe.rfl (s : VState) : VLe s s := ⟨fun _ h => h, fun _ h => h⟩

theorem VLe.trans {s t u : VState} (h1 : VLe s t) (h2 : VLe t u) : VLe s u :=
  ⟨fun m hm => h2.1 m (h1.1 m hm), fun m hm => h2.2 m (h1.2 m hm)⟩

theorem VLe_addErr (m : String) (s : VState) : VLe s (addErr m s) :=
  ⟨fun _ h => by simp [addErr]; exact Or.inl h, fun _ h => h⟩

theorem VLe_addWarn (m : String) (s : VState) : VLe s (addWarn m s) :=
  ⟨fun _ h => h, fun _ h => by simp [addWarn]; exact Or.inl h⟩

theorem VLe_addInfo (m : String) (s : VState) : VLe s (addInfo m s) :=
  ⟨fun _ h => h, fun _ h => h⟩

theorem VLe_refFindings (sid : JValue) (avail : List (JValue × List String))
    (r : String × String) (s : VState) : VLe s (refFindings sid avail r s) := by
  unfold refFindings
  split
  · exact VLe_addErr _ _
  · split
    · exact VLe.rfl s
    · exact VLe_addWarn _ _

theorem VLe_refsFold (sid : JValue) (avail : List (JValue × List String)) :
    ∀ (refs : List (String × String)) (s : VState),
      VLe s (refs.foldl (fun s r => refFindings sid avail r s) s) := by
  intro refs
  induction refs with
  | nil => intro s; exact VLe.rfl s
  | cons r rest ih =>
    intro s
    rw [List.foldl_cons]
    exact (VLe_refFindings sid avail r s).trans (ih _)

theorem VLe_dataFlowStep (s : VState) (a : List (JValue × List String)) (st : JValue) :
    VLe s ((dataFlowStep (s, a) st).1) := by
  unfold dataFlowStep
  exact VLe_refsFold _ _ _ s

theorem VLe_dataFlowFold : ∀ (steps : List JValue) (s : VState)
    (a : List (JValue × List String)), VLe s ((steps.foldl dataFlowStep (s, a)).1) := by
  intro steps
  induction steps with
  | nil => intro s a; exact VLe.rfl s
  | cons st rest ih =>
    intro s a
    rw [List.foldl_cons,
      show dataFlowStep (s, a) st = ((dataFlowStep (s, a) st).1, dfAvailStep a st) from by
        rw [← dataFlowStep_snd s a st]]
    exact (VLe_dataFlowStep s a st).trans (ih _ _)

theorem VLe_dataFlowStep_acc (acc : VState × List (JValue × List String)) (st : JValue) :
    VLe acc.1 ((dataFlowStep acc st).1) := by
  obtain ⟨s, a⟩ := acc
  exact VLe_dataFlowStep s a st

theorem VLe_dataFlowFold_acc : ∀ (steps : List JValue)
    (acc : VState × List (JValue × List String)),
    VLe acc.1 ((steps.foldl dataFlowStep acc).1) := by
  intro steps
  induction steps with
  | nil => intro acc; exact VLe.rfl acc.1
  | cons st rest ih =>
    intro acc
    rw [List.foldl_cons]
    exact (VLe_dataFlowStep_acc acc st).trans (ih _)

theorem mem_addWarn (m : String) (s : VState) : m ∈ (addWarn m s).warnings := by
  simp [addWarn]

theorem mem_addErr (m : String) (s : VState) : m ∈ (addErr m s).errors := by
  simp [addErr]

theorem refsFold_warn_of_mem (sid : JValue) (avail : List (JValue × List String))
    (x y : String) (msg : String)
    (heq : ∀ s, refFindings sid avail (x, y) s = addWarn msg s) :
    ∀ (refs : List (String × String)) (s : VState), (x, y) ∈ refs →
      msg ∈ (refs.foldl (fun s r => refFindings sid avail r s) s).warnings := by
  intro refs
  induction refs with
  | nil => intro s h; exact absurd h (List.not_mem_nil _)
  | cons r rest ih =>
    intro s h
    rw [List.foldl_cons]
    rcases List.mem_cons.mp h with heqr | hmem
    · have : refFindings sid avail r s = addWarn msg s := by rw [← heqr]; exact heq s
      rw [this]
      exact (VLe_refsFold sid avail rest (addWarn msg s)).2 msg (mem_addWarn msg s)
    · exact ih _ hmem

theorem refsFold_err_of_mem (sid : JValue) (avail : List (JValue × List String))
    (x y : String) (msg : String)
    (heq : ∀ s, refFindings sid avail (x, y) s = addErr msg s) :
    ∀ (refs : List (String × String)) (s : VState), (x, y) ∈ refs →
      msg ∈ (refs.foldl (fun s r => refFindings sid avail r s) s).errors := by
  intro refs
  induction refs with
  | nil => intro s h; exact absurd h (List.not_mem_nil _)
  | cons r rest ih =>
    intro s h
    rw [List.foldl_cons]
    rcases List.mem_cons.mp h with heqr | hmem
    · have : refFindings sid avail r s = addErr msg s := by rw [← heqr]; exact heq s
      rw [this]
      exact (VLe_refsFold sid avail rest (addErr msg s)).1 msg (mem_addErr msg s)
    · exact ih _ hmem

theorem dataFlowStep_fst (s : VState) (a : List (JValue × List String)) (st : JValue) :
    (dataFlowStep (s, a) st).1 =
      (findRefs (dumps (jgetD st "inputs" (JValue.objOf [])))).foldl
        (fun s r => refFindings (jgetD st "id" (.str "unknown")) a r s) s := rfl

theorem foldl_acc_eta (pre : List JValue) (acc : VState × List (JValue × List String)) :
    pre.foldl dataFlowStep acc =
      ((pre.foldl dataFlowStep acc).1, dfAvail pre acc.2) := by
  obtain ⟨s, a⟩ := acc
  rw [← dataFlow_snd pre s a]

/-- The step-processing part of the C7 / C10 arguments: a reference whose
per-reference findings are a fixed `add` produces that finding in the full
`_validate_data_flow` run over `pre ++ S :: post`. -/
theorem dataFlow_run_split (pre post : List JValue) (S : JValue) :
    validateDataFlow (pre ++ S :: post) VState.empty =
      (post.foldl dataFlowStep
        (dataFlowStep ((pre.foldl dataFlowStep (VState.empty, [])).1, dfAvail pre []) S)).1 := by
  unfold validateDataFlow
  rw [List.foldl_append, List.foldl_cons, foldl_acc_eta pre (VState.empty, [])]

/-- C7: a reference `\x7b\x7bsteps.X.outputs.Y\x7d\x7d` in a step S declared
after an outputs-bearing step X, where Y is not among X's declared output
field names, makes the data-flow check append the warning naming S, Y and X,
and append no error finding for that reference. -/
theorem C7_undeclared_field_warns (pre post : List JValue) (S : JValue)
    (x y : String) (flds : List String)
    (href : (x, y) ∈ findRefs (dumps (jgetD S "inputs" (JValue.objOf []))))
    (havail : availGet (dfAvail pre []) x = some flds)
    (hy : flds.contains y = false) :
    (∀ s, refFindings (jgetD S "id" (.str "unknown")) (dfAvail pre []) (x, y) s =
      addWarn (dfWarnMsg (jgetD S "id" (.str "unknown")) y x) s) ∧
    dfWarnMsg (jgetD S "id" (.str "unknown")) y x ∈
      (validateDataFlow (pre ++ S :: post) VState.empty).warnings := by
  have heq : ∀ s, refFindings (jgetD S "id" (.str "unknown")) (dfAvail pre []) (x, y) s =
      addWarn (dfWarnMsg (jgetD S "id" (.str "unknown")) y x) s := by
    intro s
    unfold refFindings
    simp only [havail, hy]
    rfl
  refine ⟨heq, ?_⟩
  rw [dataFlow_run_split pre post S]
  apply (VLe_dataFlowFold_acc post _).2
  rw [dataFlowStep_fst]
  exact refsFold_warn_of_mem _ _ x y _ heq _ _ href

/-- C10: a step S whose own inputs contain `\x7b\x7bsteps.S.outputs.Y\x7d\x7d`
gets the error-severity "references output from unknown step" finding for
that reference (with step ids unique, S is not in the availability map while
its own inputs are scanned, because outputs register only afterwards). -/
theorem C10_self_reference_errors (pre post : List JValue) (S : JValue) (sid y : String)
    (hid : jget S "id" = some (.str sid))
    (href : (sid, y) ∈ findRefs (dumps (jgetD S "inputs" (JValue.objOf []))))
    (huniq : availGet (dfAvail pre []) sid = none) :
    (∀ s, refFindings (jgetD S "id" (.str "unknown")) (dfAvail pre []) (sid, y) s =
      addErr (dfErrMsg (.str sid) sid) s) ∧
    dfErrMsg (.str sid) sid ∈
      (validateDataFlow (pre ++ S :: post) VState.empty).errors := by
  have hsid : jgetD S "id" (.str "unknown") = .str sid := by simp [jgetD, hid]
  have heq : ∀ s, refFindings (jgetD S "id" (.str "unknown")) (dfAvail pre []) (sid, y) s =
      addErr (dfErrMsg (.str sid) sid) s := by
    intro s
    unfold refFindings
    simp only [huniq, hsid]
  refine ⟨heq, ?_⟩
  rw [dataFlow_run_split pre post S]
  apply (VLe_dataFlowFold_acc post _).1
  rw [dataFlowStep_fst]
  exact refsFold_err_of_mem _ _ sid y _ heq _ _ href

def wfStepX : JValue := JValue.objOf
  [("id", .str "step_x"), ("operation", .str "query"), ("api_endpoint", .str "q://x"),
   ("outputs", JValue.objOf [("order_id", .str "$.order.id")])]

def wfStepS : JValue := JValue.objOf
  [("id", .str "step_s"), ("operation", .str "query"), ("api_endpoint", .str "q://s"),
   ("inputs", JValue.objOf
      [("ref", .str "\x7b\x7bsteps.step_x.outputs.missing_field\x7d\x7d")])]

/-- C7 witness: a concrete step referencing an undeclared output field of an
earlier outputs-bearing step gets the warning. -/
theorem C7_undeclared_field_warns_witness :
    ("step_x", "missing_field") ∈
      findRefs (dumps (jgetD wfStepS "inputs" (JValue.objOf []))) ∧
    availGet (dfAvail [wfStepX] []) "step_x" = some ["order_id"] ∧
    (["order_id"].contains "missing_field" = false) ∧
    dfWarnMsg (jgetD wfStepS "id" (.str "unknown")) "missing_field" "step_x" ∈
      (validateDataFlow ([wfStepX] ++ wfStepS :: []) VState.empty).warnings :=
  ⟨by decide, by decide, by decide,
    (C7_undeclared_field_warns [wfStepX] [] wfStepS "step_x" "missing_field" ["order_id"]
      (by decide) (by decide) (by decide)).2⟩

def wfStepLoop : JValue := JValue.objOf
  [("id", .str "loop_step"), ("operation", .str "query"), ("api_endpoint", .str "q://loop"),
   ("inputs", JValue.objOf
      [("v", .str "\x7b\x7bsteps.loop_step.outputs.out_field\x7d\x7d")]),
   ("outputs", JValue.objOf [("out_field", .str "$.out")])]

/-- C10 witness: a step that references its own declared output gets the
unknown-step error. -/
theorem C10_self_reference_errors_witness :
    jget wfStepLoop "id" = some (.str "loop_step") ∧
    ("loop_step", "out_field") ∈
      findRefs (dumps (jgetD wfStepLoop "inputs" (JValue.objOf []))) ∧
    dfErrMsg (.str "loop_step") "loop_step" ∈
      (validateDataFlow ([] ++ wfStepLoop :: []) VState.empty).errors :=
  ⟨rfl, by decide,
    (C10_self_reference_errors [] [] wfStepLoop "loop_step" "out_field" rfl
      (by decide) rfl).2⟩

/-! ### C8 -/

def suggestMsg : String := "Consider using 'runtime_injected' for better security"

def secPlain : JValue := JValue.objOf
  [("auth_required", .bool true), ("secrets_handling", .str "plaintext")]

/-- C8 counterexample: with `secrets_handling = "plaintext"` — an invalid
value — the check still appends the runtime_injected suggestion warning
(alongside the invalid-value error), refuting the claimed "only if
present with a valid value" direction. -/
theorem C8_counterexample :
    jget secPlain "secrets_handling" = some (.str "plaintext") ∧
    allowedSecrets.contains "plaintext" = false ∧
    suggestMsg ∈ (validateSecurity secPlain VState.empty).warnings ∧
    "Invalid secrets_handling: plaintext" ∈ (validateSecurity secPlain VState.empty).errors := by
  refine ⟨rfl, rfl, ?_, ?_⟩ <;> decide

theorem warnings_addErr (m : String) (s : VState) : (addErr m s).warnings = s.warnings := rfl

theorem warnings_addInfo (m : String) (s : VState) : (addInfo m s).warnings = s.warnings := rfl

theorem warnings_addWarn (m : String) (s : VState) :
    (addWarn m s).warnings = s.warnings ++ [m] := rfl

theorem info_addErr (m : String) (s : VState) : (addErr m s).info = s.info := rfl

theorem info_addWarn (m : String) (s : VState) : (addWarn m s).info = s.info := rfl

theorem info_addInfo (m : String) (s : VState) : (addInfo m s).info = s.info ++ [m] := rfl

theorem errors_addWarn (m : String) (s : VState) : (addWarn m s).errors = s.errors := rfl

theorem errors_addInfo (m : String) (s : VState) : (addInfo m s).errors = s.errors := rfl

theorem errors_addErr (m : String) (s : VState) : (addErr m s).errors = s.errors ++ [m] := rfl

/-- C8 amended: for every non-empty security object, the suggestion warning
is produced if and only if `secrets_handling` is *not* exactly
`"runtime_injected"` — including when it is absent or invalid (the `else`
branch pairs with the equality test, not with the validity check).  When it
equals `"runtime_injected"` the check emits the positive info finding and no
suggestion warning, and a present-but-invalid value such as `"plaintext"`
yields the error citing the value. -/
theorem C8_amended (fl : List (String × JValue)) (hne : fl ≠ []) :
    (suggestMsg ∈ (validateSecurity (JValue.objOf fl) VState.empty).warnings ↔
      ¬(jget (JValue.objOf fl) "secrets_handling" = some (.str "runtime_injected"))) ∧
    (jget (JValue.objOf fl) "secrets_handling" = some (.str "runtime_injected") →
      "[+] Credential-agnostic design (runtime_injected)" ∈
        (validateSecurity (JValue.objOf fl) VState.empty).info) ∧
    (∀ v, jget (JValue.objOf fl) "secrets_handling" = some v →
      allowedSecrets.any (fun a => jIsStr v a) = false →
      ("Invalid secrets_handling: " ++ pyStr v) ∈
        (validateSecurity (JValue.objOf fl) VState.empty).errors) := by
  have htruthy : jTruthy (JValue.objOf fl) = true := by
    simp [jTruthy, JValue.objOf, jfields_toList_ofList, hne]
  have hri : (match jget (JValue.objOf fl) "secrets_handling" with
      | some v => jIsStr v "runtime_injected"
      | none => false) = true ↔
      jget (JValue.objOf fl) "secrets_handling" = some (.str "runtime_injected") := by
    cases h : jget (JValue.objOf fl) "secrets_handling" with
    | none => simp
    | some v => cases v <;> simp [jIsStr]
  refine ⟨?_, ?_, ?_⟩
  · by_cases h3 : jget (JValue.objOf fl) "secrets_handling" = some (.str "runtime_injected")
    · simp only [validateSecurity, htruthy, Bool.not_true, Bool.false_eq_true, if_false,
        hri.mpr h3, if_true, h3]
      by_cases h4 : jhas (JValue.objOf fl) "minimum_role" <;>
        by_cases h5 : jhas (JValue.objOf fl) "rate_limit" <;>
          simp +decide [h4, h5, apply_ite VState.warnings, warnings_addErr, warnings_addInfo,
            warnings_addWarn, VState.empty, suggestMsg]
    · simp only [validateSecurity, htruthy, Bool.not_true, Bool.false_eq_true, if_false,
        (by simpa [h3] using hri : _ = false), h3]
      by_cases h4 : jhas (JValue.objOf fl) "minimum_role" <;>
        by_cases h5 : jhas (JValue.objOf fl) "rate_limit" <;>
          simp +decide [h4, h5, apply_ite VState.warnings, warnings_addErr, warnings_addInfo,
            warnings_addWarn, VState.empty, suggestMsg]
  · intro h3
    simp only [validateSecurity, htruthy, Bool.not_true, Bool.false_eq_true, if_false,
      hri.mpr h3, if_true]
    by_cases h4 : jhas (JValue.objOf fl) "minimum_role" <;>
      by_cases h5 : jhas (JValue.objOf fl) "rate_limit" <;>
        simp [h4, h5, apply_ite VState.info, info_addErr, info_addWarn, info_addInfo,
          VState.empty]
  · intro v hv hinvalid
    have hpresent : jhas (JValue.objOf fl) "secrets_handling" = true := by
      simp [jhas, hv]
    have hvalid : (allowedSecrets.any
        (fun a => jIsStr (jgetD (JValue.objOf fl) "secrets_handling" .null) a)) = false := by
      simpa [jgetD, hv] using hinvalid
    have hforall : ∀ x ∈ allowedSecrets, jIsStr v x = false := by
      intro x hx
      by_contra hcon
      have hx2 : allowedSecrets.any (fun a => jIsStr v a) = true :=
        List.any_eq_true.mpr ⟨x, hx, by revert hcon; cases jIsStr v x <;> simp⟩
      rw [hx2] at hinvalid
      exact absurd hinvalid (by simp)
    simp only [validateSecurity, htruthy, Bool.not_true, Bool.false_eq_true, if_false,
      hpresent, hvalid, Bool.not_false, if_true, jgetD, hv, Option.getD_some]
    simp only [apply_ite VState.errors, errors_addWarn, errors_addInfo, errors_addErr,
      VState.empty, ite_self]
    rw [if_pos (show (!allowedSecrets.any fun a => jIsStr v a) = true by simp [hinvalid])]
    simp

def secVaultFl : List (String × JValue) :=
  [("auth_required", .bool true), ("secrets_handling", .str "vault")]

/-- C8 amended witness at a concrete valid-but-not-runtime_injected config. -/
theorem C8_amended_witness :
    secVaultFl ≠ [] ∧
    (suggestMsg ∈ (validateSecurity (JValue.objOf secVaultFl) VState.empty).warnings ↔
      ¬(jget (JValue.objOf secVaultFl) "secrets_handling" =
        some (.str "runtime_injected"))) :=
  ⟨by decide, (C8_amended secVaultFl (by decide)).1⟩

/-! ### C2: the mutual two-step cycle is always detected

The proof follows the shape of the DFS: `dfsGo_*` lemmas about one neighbor
loop (parameterised over the recursive visit), lifted to `dfsF_*` lemmas by
induction on the fuel, then through the top-level node loop.  Throughout,
`a` and `b` are the ids of the two mutually dependent steps. -/

theorem dfsGo_cons (recur : JValue → List JValue → List JValue → Bool × List JValue)
    (nb : JValue) (rest v rs : List JValue) :
    dfsGo recur (nb :: rest) v rs =
      if nb ∈ v then
        if nb ∈ rs then (true, v) else dfsGo recur rest v rs
      else
        match recur nb v rs with
        | (true, v') => (true, v')
        | (false, v') => dfsGo recur rest v' rs := rfl

theorem dfsGo_mono (recur : JValue → List JValue → List JValue → Bool × List JValue)
    (hrecM : ∀ n v rs, v ⊆ (recur n v rs).2) :
    ∀ (ns v rs : List JValue), v ⊆ (dfsGo recur ns v rs).2 := by
  intro ns
  induction ns with
  | nil => intro v rs; exact fun x h => h
  | cons nb rest ih =>
    intro v rs
    rw [dfsGo_cons]
    by_cases h1 : nb ∈ v
    · by_cases h2 : nb ∈ rs
      · simp [h1, h2]
      · simpa [h1, h2] using ih v rs
    · simp only [h1, if_false]
      cases hrec : recur nb v rs with
      | mk bb v' =>
        have hsub : v ⊆ v' := by
          have := hrecM nb v rs
          rw [hrec] at this
          exact this
        cases bb
        · exact hsub.trans (ih v' rs)
        · exact hsub

theorem dfsF_mono (graph : List (JValue × List JValue)) :
    ∀ (fuel : Nat) (n : JValue) (v rs : List JValue),
      v ⊆ (dfsF graph fuel n v rs).2 := by
  intro fuel
  induction fuel with
  | zero => intro n v rs; exact fun x h => h
  | succ fuel ih =>
    intro n v rs
    have : v ⊆ n :: v := List.subset_cons_self n v
    exact this.trans (dfsGo_mono (dfsF graph fuel) (fun n' v' rs' => ih n' v' rs')
      (graphGet graph n) (n :: v) (n :: rs))

/-- The neighbor loop returns `true` as soon as it reaches a neighbor that
is already on the active recursion stack. -/
theorem dfsGo_hit (recur : JValue → List JValue → List JValue → Bool × List JValue)
    (a : JValue) (hrecM : ∀ n v rs, v ⊆ (recur n v rs).2) :
    ∀ (ns v rs : List JValue), a ∈ ns → a ∈ rs → a ∈ v →
      (dfsGo recur ns v rs).1 = true := by
  intro ns
  induction ns with
  | nil => intro v rs h; exact absurd h (List.not_mem_nil a)
  | cons nb rest ih =>
    intro v rs hans hars hav
    rw [dfsGo_cons]
    by_cases hnb : nb = a
    · subst hnb
      simp [hav, hars]
    · have harest : a ∈ rest := by
        rcases List.mem_cons.mp hans with h | h
        · exact absurd h.symm hnb
        · exact h
      by_cases h1 : nb ∈ v
      · by_cases h2 : nb ∈ rs
        · simp [h1, h2]
        · simpa [h1, h2] using ih v rs harest hars hav
      · simp only [h1, if_false]
        cases hrec : recur nb v rs with
        | mk bb v' =>
          cases bb
          · have hav' : a ∈ v' := by
              have := hrecM nb v rs
              rw [hrec] at this
              exact this hav
            exact ih v' rs harest hars hav'
          · rfl

/-- Any visit of `b` while `a` is on the stack detects the `b → a` back
edge. -/
theorem dfsF_back (graph : List (JValue × List JValue)) (a b : JValue)
    (hB : a ∈ graphGet graph b) :
    ∀ (fuel : Nat) (v rs : List JValue), a ∈ rs → a ∈ v →
      (dfsF graph fuel b v rs).1 = true := by
  intro fuel
  cases fuel with
  | zero => intro v rs _ _; rfl
  | succ fuel =>
    intro v rs hars hav
    exact dfsGo_hit (dfsF graph fuel) a (dfsF_mono graph fuel)
      (graphGet graph b) (b :: v) (b :: rs) hB
      (List.mem_cons_of_mem b hars) (List.mem_cons_of_mem b hav)

/-- While `a` is on the stack, a neighbor loop that returns `false` cannot
have newly visited `b` (a visit of `b` would have seen the `b → a` back
edge and returned `true`). -/
theorem dfsGo_pres (recur : JValue → List JValue → List JValue → Bool × List JValue)
    (a b : JValue)
    (hrecB : ∀ v rs, a ∈ rs → a ∈ v → (recur b v rs).1 = true)
    (hrecP : ∀ n v rs v', a ∈ rs → a ∈ v → n ≠ b → recur n v rs = (false, v') →
      b ∈ v' → b ∈ v)
    (hrecM : ∀ n v rs, v ⊆ (recur n v rs).2) :
    ∀ (ns v rs v' : List JValue), a ∈ rs → a ∈ v →
      dfsGo recur ns v rs = (false, v') → b ∈ v' → b ∈ v := by
  intro ns
  induction ns with
  | nil =>
    intro v rs v' _ _ heq hbv'
    have h2 : v = v' := congrArg Prod.snd heq
    exact h2 ▸ hbv'
  | cons nb rest ih =>
    intro v rs v' hars hav heq hbv'
    rw [dfsGo_cons] at heq
    by_cases h1 : nb ∈ v
    · by_cases h2 : nb ∈ rs
      · rw [if_pos h1, if_pos h2] at heq
        exact absurd (congrArg Prod.fst heq) (by simp)
      · rw [if_pos h1, if_neg h2] at heq
        exact ih v rs v' hars hav heq hbv'
    · rw [if_neg h1] at heq
      cases hrec : recur nb v rs with
      | mk bb v'' =>
        rw [hrec] at heq
        cases bb
        · by_cases hnb : nb = b
          · subst hnb
            have := hrecB v rs hars hav
            rw [hrec] at this
            exact absurd this (by simp)
          · have hav'' : a ∈ v'' := by
              have := hrecM nb v rs
              rw [hrec] at this
              exact this hav
            have hbv'' : b ∈ v'' := ih v'' rs v' hars hav'' heq hbv'
            exact hrecP nb v rs v'' hars hav hnb hrec hbv''
        · exact absurd (congrArg Prod.fst heq) (by simp)

theorem dfsF_pres (graph : List (JValue × List JValue)) (a b : JValue)
    (hB : a ∈ graphGet graph b) :
    ∀ (fuel : Nat) (n : JValue) (v rs v' : List JValue), a ∈ rs → a ∈ v → n ≠ b →
      dfsF graph fuel n v rs = (false, v') → b ∈ v' → b ∈ v := by
  intro fuel
  induction fuel with
  | zero =>
    intro n v rs v' _ _ _ heq _
    exact absurd (congrArg Prod.fst heq) (by simp [dfsF])
  | succ fuel ih =>
    intro n v rs v' hars hav hnb heq hbv'
    have hbnv : b ∈ n :: v :=
      dfsGo_pres (dfsF graph fuel) a b
        (fun v rs h1 h2 => dfsF_back graph a b hB fuel v rs h1 h2)
        (fun n' v'' rs' v₃ h1 h2 h3 h4 h5 => ih n' v'' rs' v₃ h1 h2 h3 h4 h5)
        (dfsF_mono graph fuel)
        (graphGet graph n) (n :: v) (n :: rs) v'
        (List.mem_cons_of_mem n hars) (List.mem_cons_of_mem n hav) heq hbv'
    rcases List.mem_cons.mp hbnv with h | h
    · exact absurd h.symm hnb
    · exact h

/-- A neighbor loop whose list contains `b`, entered while `a` is on the
stack, returns `true`: when it reaches `b`, either `b` is unvisited and the
recursive visit sees the back edge, or `b` is on the stack. -/
theorem dfsGo_cross (recur : JValue → List JValue → List JValue → Bool × List JValue)
    (a b : JValue) (_hab : a ≠ b)
    (hrecB : ∀ v rs, a ∈ rs → a ∈ v → (recur b v rs).1 = true)
    (hrecP : ∀ n v rs v', a ∈ rs → a ∈ v → n ≠ b → recur n v rs = (false, v') →
      b ∈ v' → b ∈ v)
    (hrecM : ∀ n v rs, v ⊆ (recur n v rs).2) :
    ∀ (ns v rs : List JValue), b ∈ ns → a ∈ rs → a ∈ v → (b ∈ v → b ∈ rs) →
      (dfsGo recur ns v rs).1 = true := by
  intro ns
  induction ns with
  | nil => intro v rs h; exact absurd h (List.not_mem_nil b)
  | cons nb rest ih =>
    intro v rs hbns hars hav hbinv
    rw [dfsGo_cons]
    by_cases hnb : nb = b
    · subst hnb
      by_cases h1 : nb ∈ v
      · simp [h1, hbinv h1]
      · simp only [h1, if_false]
        cases hrec : recur nb v rs with
        | mk bb v' =>
          have := hrecB v rs hars hav
          rw [hrec] at this
          simp only at this
          subst this
          rfl
    · have hbrest : b ∈ rest := by
        rcases List.mem_cons.mp hbns with h | h
        · exact absurd h.symm hnb
        · exact h
      by_cases h1 : nb ∈ v
      · by_cases h2 : nb ∈ rs
        · simp [h1, h2]
        · simpa [h1, h2] using ih v rs hbrest hars hav hbinv
      · simp only [h1, if_false]
        cases hrec : recur nb v rs with
        | mk bb v' =>
          cases bb
          · have hav' : a ∈ v' := by
              have := hrecM nb v rs
              rw [hrec] at this
              exact this hav
            have hbinv' : b ∈ v' → b ∈ rs := fun hbv' =>
              hbinv (hrecP nb v rs v' hars hav hnb hrec hbv')
            exact ih v' rs hbrest hars hav' hbinv'
          · rfl

/-- Visiting `a` itself (the other end of the mutual cycle) always reports
the cycle. -/
theorem dfsF_cycle (graph : List (JValue × List JValue)) (a b : JValue)
    (hab : a ≠ b) (hA : b ∈ graphGet graph a) (hB : a ∈ graphGet graph b) :
    ∀ (fuel : Nat) (v rs : List JValue), (b ∈ v → b ∈ rs) →
      (dfsF graph fuel a v rs).1 = true := by
  intro fuel
  cases fuel with
  | zero => intro v rs _; rfl
  | succ fuel =>
    intro v rs hbinv
    refine dfsGo_cross (dfsF graph fuel) a b hab
      (fun v' rs' h1 h2 => dfsF_back graph a b hB fuel v' rs' h1 h2)
      (fun n v' rs' v'' h1 h2 h3 h4 h5 => dfsF_pres graph a b hB fuel n v' rs' v'' h1 h2 h3 h4 h5)
      (dfsF_mono graph fuel)
      (graphGet graph a) (a :: v) (a :: rs) hA
      (List.mem_cons_self a rs) (List.mem_cons_self a v) ?_
    intro hbav
    rcases List.mem_cons.mp hbav with h | h
    · exact absurd h.symm hab
    · exact List.mem_cons_of_mem a (hbinv h)

/-- Invariant preservation for the neighbor loop: if every already-visited
occurrence of `a` or `b` is still on the stack, the loop either detects a
cycle or returns a visited set with the same property. -/
theorem dfsGo_inv (recur : JValue → List JValue → List JValue → Bool × List JValue)
    (a b : JValue)
    (hrecA : ∀ v rs, (b ∈ v → b ∈ rs) → (recur a v rs).1 = true)
    (hrecB2 : ∀ v rs, (a ∈ v → a ∈ rs) → (recur b v rs).1 = true)
    (hrecI : ∀ n v rs, (a ∈ v → a ∈ rs) → (b ∈ v → b ∈ rs) →
      (recur n v rs).1 = true ∨
      ∃ v', recur n v rs = (false, v') ∧ (a ∈ v' → a ∈ rs) ∧ (b ∈ v' → b ∈ rs)) :
    ∀ (ns v rs : List JValue), (a ∈ v → a ∈ rs) → (b ∈ v → b ∈ rs) →
      (dfsGo recur ns v rs).1 = true ∨
      ∃ v', dfsGo recur ns v rs = (false, v') ∧ (a ∈ v' → a ∈ rs) ∧ (b ∈ v' → b ∈ rs) := by
  intro ns
  induction ns with
  | nil => intro v rs ha hb; exact Or.inr ⟨v, rfl, ha, hb⟩
  | cons nb rest ih =>
    intro v rs ha hb
    rw [dfsGo_cons]
    by_cases h1 : nb ∈ v
    · by_cases h2 : nb ∈ rs
      · simp [h1, h2]
      · simpa [h1, h2] using ih v rs ha hb
    · simp only [h1, if_false]
      by_cases hna : nb = a
      · subst hna
        cases hrec : recur nb v rs with
        | mk bb v' =>
          have := hrecA v rs hb
          rw [hrec] at this
          simp only at this
          subst this
          exact Or.inl rfl
      · by_cases hnb : nb = b
        · subst hnb
          cases hrec : recur nb v rs with
          | mk bb v' =>
            have := hrecB2 v rs ha
            rw [hrec] at this
            simp only at this
            subst this
            exact Or.inl rfl
        · rcases hrecI nb v rs ha hb with htrue | ⟨v', heq, ha', hb'⟩
          · cases hrec : recur nb v rs with
            | mk bb v' =>
              rw [hrec] at htrue
              simp only at htrue
              subst htrue
              exact Or.inl rfl
          · rw [heq]
            exact ih v' rs ha' hb'

theorem dfsF_inv (graph : List (JValue × List JValue)) (a b : JValue)
    (hab : a ≠ b) (hA : b ∈ graphGet graph a) (hB : a ∈ graphGet graph b) :
    ∀ (fuel : Nat) (n : JValue) (v rs : List JValue),
      (a ∈ v → a ∈ rs) → (b ∈ v → b ∈ rs) →
      (dfsF graph fuel n v rs).1 = true ∨
      ∃ v', dfsF graph fuel n v rs = (false, v') ∧ (a ∈ v' → a ∈ rs) ∧ (b ∈ v' → b ∈ rs) := by
  intro fuel
  induction fuel with
  | zero => intro n v rs _ _; exact Or.inl rfl
  | succ fuel ih =>
    intro n v rs ha hb
    by_cases hna : n = a
    · rw [hna]
      exact Or.inl (dfsF_cycle graph a b hab hA hB (fuel + 1) v rs hb)
    · by_cases hnb : n = b
      · rw [hnb]
        exact Or.inl (dfsF_cycle graph b a (Ne.symm hab) hB hA (fuel + 1) v rs ha)
      · have hinner := dfsGo_inv (dfsF graph fuel) a b
          (fun v' rs' h => dfsF_cycle graph a b hab hA hB fuel v' rs' h)
          (fun v' rs' h => dfsF_cycle graph b a (Ne.symm hab) hB hA fuel v' rs' h)
          (fun n' v' rs' h1 h2 => ih n' v' rs' h1 h2)
          (graphGet graph n) (n :: v) (n :: rs)
          ?_ ?_
        · rcases hinner with htrue | ⟨v', heq, ha', hb'⟩
          · exact Or.inl htrue
          · refine Or.inr ⟨v', heq, ?_, ?_⟩
            · intro hav'
              rcases List.mem_cons.mp (ha' hav') with h | h
              · exact absurd h.symm hna
              · exact h
            · intro hbv'
              rcases List.mem_cons.mp (hb' hbv') with h | h
              · exact absurd h.symm hnb
              · exact h
        · intro hav
          rcases List.mem_cons.mp hav with h | h
          · exact absurd h.symm hna
          · exact List.mem_cons_of_mem n (ha h)
        · intro hbv
          rcases List.mem_cons.mp hbv with h | h
          · exact absurd h.symm hnb
          · exact List.mem_cons_of_mem n (hb h)

theorem circTop_cons (graph : List (JValue × List JValue)) (n : JValue)
    (ns v : List JValue) :
    circTop graph (n :: ns) v =
      if n ∈ v then circTop graph ns v
      else
        match dfsF graph (circFuel graph) n v [] with
        | (true, _) => true
        | (false, v') => circTop graph ns v' := rfl

/-- The top-level node loop reports the cycle once it reaches `a` (or
detects it earlier through another exploration touching the pair). -/
theorem circTop_cycle (graph : List (JValue × List JValue)) (a b : JValue)
    (hab : a ≠ b) (hA : b ∈ graphGet graph a) (hB : a ∈ graphGet graph b) :
    ∀ (nodes v : List JValue), a ∈ nodes → a ∉ v → b ∉ v →
      circTop graph nodes v = true := by
  intro nodes
  induction nodes with
  | nil => intro v h; exact absurd h (List.not_mem_nil a)
  | cons n ns ih =>
    intro v hans hav hbv
    rw [circTop_cons]
    by_cases h1 : n ∈ v
    · rw [if_pos h1]
      have hane : a ≠ n := fun h => hav (h ▸ h1)
      have hans' : a ∈ ns := by
        rcases List.mem_cons.mp hans with h | h
        · exact absurd h hane
        · exact h
      exact ih v hans' hav hbv
    · rw [if_neg h1]
      by_cases hna : n = a
      · rw [hna]
        cases hrec : dfsF graph (circFuel graph) a v [] with
        | mk bb v' =>
          have := dfsF_cycle graph a b hab hA hB (circFuel graph) v []
            (fun h => absurd h hbv)
          rw [hrec] at this
          simp only at this
          subst this
          rfl
      · by_cases hnb : n = b
        · rw [hnb]
          cases hrec : dfsF graph (circFuel graph) b v [] with
          | mk bb v' =>
            have := dfsF_cycle graph b a (Ne.symm hab) hB hA (circFuel graph) v []
              (fun h => absurd h hav)
            rw [hrec] at this
            simp only at this
            subst this
            rfl
        · have hans' : a ∈ ns := by
            rcases List.mem_cons.mp hans with h | h
            · exact absurd h.symm hna
            · exact h
          rcases dfsF_inv graph a b hab hA hB (circFuel graph) n v []
              (fun h => absurd h hav) (fun h => absurd h hbv) with htrue | ⟨v', heq, ha', hb'⟩
          · cases hrec : dfsF graph (circFuel graph) n v [] with
            | mk bb v' =>
              rw [hrec] at htrue
              simp only at htrue
              subst htrue
              rfl
          · rw [heq]
            exact ih v' hans' (fun h => absurd (ha' h) (List.not_mem_nil a))
              (fun h => absurd (hb' h) (List.not_mem_nil b))

/-- Whenever the dependency graph has the mutual pair `a ↔ b`, the cycle
check reports a cycle. -/
theorem hasCircular_of_mutual (steps : List JValue) (a b : JValue) (hab : a ≠ b)
    (hkey : a ∈ (buildGraph steps).map (fun p => p.1))
    (hA : b ∈ graphGet (buildGraph steps) a)
    (hB : a ∈ graphGet (buildGraph steps) b) :
    hasCircularDependency steps = true := by
  unfold hasCircularDependency
  exact circTop_cycle (buildGraph steps) a b hab hA hB _ [] hkey
    (List.not_mem_nil a) (List.not_mem_nil b)

theorem graphGet_dictInsertG_self (k : JValue) (v : List JValue)
    (g : List (JValue × List JValue)) : graphGet (dictInsertG k v g) k = v := by
  induction g with
  | nil => simp [dictInsertG, graphGet]
  | cons p rest ih =>
    obtain ⟨k', v'⟩ := p
    by_cases h : k' = k
    · simp [dictInsertG, graphGet, h]
    · simp [dictInsertG, graphGet, h, ih]

theorem graphGet_dictInsertG_ne {k' k : JValue} (h : k' ≠ k) (v : List JValue)
    (g : List (JValue × List JValue)) :
    graphGet (dictInsertG k' v g) k = graphGet g k := by
  induction g with
  | nil => simp [dictInsertG, graphGet, h]
  | cons p rest ih =>
    obtain ⟨k'', v''⟩ := p
    by_cases h2 : k'' = k'
    · subst h2
      simp [dictInsertG, graphGet, h]
    · simp [dictInsertG, graphGet, h2, ih]

theorem keys_dictInsertG_self (k : JValue) (v : List JValue)
    (g : List (JValue × List JValue)) :
    k ∈ (dictInsertG k v g).map (fun p => p.1) := by
  induction g with
  | nil => simp [dictInsertG]
  | cons p rest ih =>
    obtain ⟨k', v'⟩ := p
    by_cases h : k' = k
    · simp [dictInsertG, h]
    · simp only [dictInsertG, h, if_false, List.map_cons, List.mem_cons]
      exact Or.inr ih

theorem keys_dictInsertG_mono {x : JValue} (k : JValue) (v : List JValue)
    (g : List (JValue × List JValue)) (hx : x ∈ g.map (fun p => p.1)) :
    x ∈ (dictInsertG k v g).map (fun p => p.1) := by
  induction g with
  | nil => simp at hx
  | cons p rest ih =>
    obtain ⟨k', v'⟩ := p
    simp only [List.map_cons, List.mem_cons] at hx
    by_cases h : k' = k
    · simpa [dictInsertG, h] using hx
    · simp only [dictInsertG, h, if_false, List.map_cons, List.mem_cons]
      rcases hx with h' | h'
      · exact Or.inl h'
      · exact Or.inr (ih h')

/-- Later steps that never carry the id `k` leave the `k`-row (and the
presence of `k` among the keys) untouched. -/
theorem buildGraph_preserve (k : JValue) :
    ∀ (rest : List JValue) (g : List (JValue × List JValue)),
      (∀ t ∈ rest, jget t "id" ≠ some k) →
      graphGet (rest.foldl buildGraphStep g) k = graphGet g k ∧
      (k ∈ g.map (fun p => p.1) →
        k ∈ (rest.foldl buildGraphStep g).map (fun p => p.1)) := by
  intro rest
  induction rest with
  | nil => intro g _; exact ⟨rfl, fun h => h⟩
  | cons t rest' ih =>
    intro g hne
    rw [List.foldl_cons]
    have hstep : graphGet (buildGraphStep g t) k = graphGet g k ∧
        (k ∈ g.map (fun p => p.1) → k ∈ (buildGraphStep g t).map (fun p => p.1)) := by
      unfold buildGraphStep
      cases hid : jget t "id" with
      | none => exact ⟨rfl, fun h => h⟩
      | some k' =>
        have hk' : k' ≠ k := fun h =>
          hne t (List.mem_cons_self t rest') (by rw [hid, h])
        exact ⟨graphGet_dictInsertG_ne hk' _ g, fun h => keys_dictInsertG_mono _ _ g h⟩
    obtain ⟨h1, h2⟩ := ih (buildGraphStep g t)
      (fun t' ht' => hne t' (List.mem_cons_of_mem t ht'))
    exact ⟨h1.trans hstep.1, fun h => h2 (hstep.2 h)⟩

/-- With the id `k` unique to step `A`, the built graph maps `k` to `A`'s
`depends_on` list and has `k` among its keys. -/
theorem buildGraph_row :
    ∀ (steps : List JValue) (g : List (JValue × List JValue)) (A k : JValue),
      A ∈ steps → jget A "id" = some k →
      (∀ t ∈ steps, jget t "id" = some k → t = A) →
      graphGet (steps.foldl buildGraphStep g) k =
        pyIter (jgetD A "depends_on" (JValue.arrOf [])) ∧
      k ∈ (steps.foldl buildGraphStep g).map (fun p => p.1) := by
  intro steps
  induction steps with
  | nil => intro g A k h; exact absurd h (List.not_mem_nil A)
  | cons t rest ih =>
    intro g A k hA hid huniq
    by_cases hAr : A ∈ rest
    · rw [List.foldl_cons]
      exact ih (buildGraphStep g t) A k hAr hid
        (fun t' ht' h => huniq t' (List.mem_cons_of_mem t ht') h)
    · have hAt : A = t := by
        rcases List.mem_cons.mp hA with h | h
        · exact h
        · exact absurd h hAr
      subst hAt
      rw [List.foldl_cons]
      have hstep : buildGraphStep g A =
          dictInsertG k (pyIter (jgetD A "depends_on" (JValue.arrOf []))) g := by
        unfold buildGraphStep
        rw [hid]
      rw [hstep]
      have hnone : ∀ t' ∈ rest, jget t' "id" ≠ some k := fun t' ht' hcon =>
        hAr ((huniq t' (List.mem_cons_of_mem A ht') hcon) ▸ ht')
      obtain ⟨hpre, hkeys⟩ := buildGraph_preserve k rest
        (dictInsertG k (pyIter (jgetD A "depends_on" (JValue.arrOf []))) g) hnone
      exact ⟨hpre.trans (graphGet_dictInsertG_self _ _ g),
        hkeys (keys_dictInsertG_self _ _ g)⟩

theorem depMsg_ne_circ (x y : JValue) : depMsg x y ≠ circMsg := by
  intro h
  have hd := congrArg (fun s => s.data.head?) h
  have e1 : ("Step '" : String).data = 'S' :: "tep '".data := rfl
  have e2 : circMsg.data = 'C' :: "ircular dependency detected in workflow steps".data := rfl
  simp only [depMsg, String.data_append, e2, e1, List.cons_append, List.append_assoc,
    List.head?_cons] at hd
  exact absurd hd (by decide)

theorem validateDepsStep_eq (ids : List JValue) (s : VState) (st : JValue) :
    validateDepsStep ids s st =
      (pyIter (jgetD st "depends_on" (JValue.arrOf []))).foldl
        (fun s dep => if ids.contains dep then s
          else addErr (depMsg (jgetD st "id" (.str "unknown")) dep) s) s := rfl

theorem depfold_shape (ids : List JValue) (stepId : JValue) :
    ∀ (deps : List JValue) (s0 : VState) (m : String),
      m ∈ ((deps.foldl (fun s dep => if ids.contains dep then s
        else addErr (depMsg stepId dep) s) s0)).errors →
      m ∈ s0.errors ∨ ∃ x y, m = depMsg x y := by
  intro deps
  induction deps with
  | nil => intro s0 m h; exact Or.inl h
  | cons dep rest ih =>
    intro s0 m h
    rw [List.foldl_cons] at h
    rcases ih _ m h with h1 | h1
    · by_cases hc : ids.contains dep = true
      · rw [if_pos hc] at h1
        exact Or.inl h1
      · rw [if_neg hc, errors_addErr] at h1
        rcases List.mem_append.mp h1 with h2 | h2
        · exact Or.inl h2
        · exact Or.inr ⟨stepId, dep, (List.mem_singleton.mp h2)⟩
    · exact Or.inr h1

theorem depsLoop_shape :
    ∀ (steps ids : List JValue) (s0 : VState) (m : String),
      m ∈ ((steps.foldl (validateDepsStep ids) s0)).errors →
      m ∈ s0.errors ∨ ∃ x y, m = depMsg x y := by
  intro steps
  induction steps with
  | nil => intro ids s0 m h; exact Or.inl h
  | cons st rest ih =>
    intro ids s0 m h
    rw [List.foldl_cons] at h
    rcases ih ids _ m h with h1 | h1
    · rw [validateDepsStep_eq] at h1
      exact depfold_shape ids _ _ s0 m h1
    · exact Or.inr h1

/-- C2: in every workflow definition containing two steps A and B (with
distinct string ids that no other step reuses) whose `depends_on` lists
mutually name each other, the dependency check appends exactly one
aggregate "Circular dependency detected in workflow steps" error,
whatever else the definition contains. -/
theorem C2_mutual_cycle_single_error
    (steps : List JValue) (A B : JValue) (a b : String) (dA dB : List JValue)
    (hA : A ∈ steps) (hB : B ∈ steps)
    (hAid : jget A "id" = some (.str a)) (hBid : jget B "id" = some (.str b))
    (hab : a ≠ b)
    (hAdep : jgetD A "depends_on" (JValue.arrOf []) = JValue.arrOf dA)
    (hBdep : jgetD B "depends_on" (JValue.arrOf []) = JValue.arrOf dB)
    (hdab : JValue.str b ∈ dA) (hdba : JValue.str a ∈ dB)
    (huA : ∀ t ∈ steps, jget t "id" = some (.str a) → t = A)
    (huB : ∀ t ∈ steps, jget t "id" = some (.str b) → t = B) :
    ((validateDependencies steps VState.empty).errors).count circMsg = 1 := by
  have habj : JValue.str a ≠ JValue.str b := fun h => hab (by injection h)
  obtain ⟨hrowA, hkeyA⟩ := buildGraph_row steps [] A (.str a) hA hAid huA
  obtain ⟨hrowB, -⟩ := buildGraph_row steps [] B (.str b) hB hBid huB
  have hA' : JValue.str b ∈ graphGet (buildGraph steps) (.str a) := by
    show JValue.str b ∈ graphGet (steps.foldl buildGraphStep []) (.str a)
    rw [hrowA, hAdep, pyIter_arrOf]
    exact hdab
  have hB' : JValue.str a ∈ graphGet (buildGraph steps) (.str b) := by
    show JValue.str a ∈ graphGet (steps.foldl buildGraphStep []) (.str b)
    rw [hrowB, hBdep, pyIter_arrOf]
    exact hdba
  have hcyc := hasCircular_of_mutual steps (.str a) (.str b) habj hkeyA hA' hB'
  unfold validateDependencies
  rw [if_pos hcyc, errors_addErr, List.count_append]
  have hzero : ((steps.foldl (validateDepsStep (stepIdSet steps)) VState.empty).errors).count
      circMsg = 0 := by
    rw [List.count_eq_zero]
    intro hmem
    rcases depsLoop_shape steps (stepIdSet steps) VState.empty circMsg hmem with h | ⟨x, y, h⟩
    · exact absurd h (List.not_mem_nil _)
    · exact depMsg_ne_circ x y h.symm
  rw [hzero]
  simp

def cyStepA : JValue := JValue.objOf
  [("id", .str "step_alpha"), ("operation", .str "query"),
   ("api_endpoint", .str "q://a"), ("depends_on", JValue.arrOf [.str "step_beta"])]

def cyStepB : JValue := JValue.objOf
  [("id", .str "step_beta"), ("operation", .str "mutation"),
   ("api_endpoint", .str "m://b"), ("depends_on", JValue.arrOf [.str "step_alpha"]),
   ("outputs", JValue.objOf [("result_id", .str "$.id")])]

def cyStepC : JValue := JValue.objOf
  [("id", .str "step_gamma"), ("operation", .str "query"), ("api_endpoint", .str "q://c")]

/-- C2 witness: a concrete three-step workflow (mutual pair plus an
unrelated valid step) gets exactly one aggregate circular-dependency
error. -/
theorem C2_mutual_cycle_single_error_witness :
    ((validateDependencies [cyStepA, cyStepB, cyStepC] VState.empty).errors).count
      circMsg = 1 :=
  C2_mutual_cycle_single_error [cyStepA, cyStepB, cyStepC] cyStepA cyStepB
    "step_alpha" "step_beta" [.str "step_beta"] [.str "step_alpha"]
    (by decide) (by decide) rfl rfl (by decide) rfl rfl (by decide) (by decide)
    (by decide) (by decide)
